import Mathlib

/-!
# InstanceConfigWatcher::CheckConfigDiff

A shallow embedding of `core/config/watcher/InstanceConfigWatcher.cpp`.

One pass of `CheckConfigDiff` walks the configured source directories,
consults the per-path signature cache `mFileInfoMap`, loads the files whose
signature is new or changed, compares them with the instance configs held by
`InstanceConfigManager`, and returns an `InstanceConfigDiff`.

The filesystem and the collaborators of the pass (`LoadConfigDetailFromFile`,
`IsConfigEnabled`) are the fields of `Env`; the pass reads a fixed snapshot.
The per-directory mutex (`mDirMutexMap`) only serialises a pass against
external writers and has no effect on a pass over a snapshot, so it is not
part of the state.  Log statements are dropped.

Every filesystem call of the pass takes an error code, except the advance of
the directory enumeration (line 54), which throws.  `scanDir` and
`CheckConfigDiffOrThrow` have that case; `CheckConfigDiff` is the call on the
snapshots in which no enumeration fails while it advances, where the call
returns.
-/

namespace logtail

/-! ## Paths -/

/-- The file name of a path: the characters after the last `/`. -/
def filenameChars (p : List Char) : List Char :=
  (p.reverse.takeWhile (fun c => c ≠ '/')).reverse

/-- The stem of a file name, as `std::filesystem::path::stem` computes it: the
file name up to its last period; the whole file name when it is `.` or `..`,
when it has no period, or when its only period is its first character. -/
def stemChars (f : List Char) : List Char :=
  if f = ['.'] ∨ f = ['.', '.'] then f
  else
    let ext := f.reverse.takeWhile (fun c => c ≠ '.')
    if ext.length = f.length then f
    else
      let base := f.take (f.length - ext.length - 1)
      if base = [] then f else base

/-- Stem of a path, `path.stem().string()`. -/
def stem (path : String) : String :=
  String.mk (stemChars (filenameChars path.data))

/-! ## Filesystem snapshot and collaborators -/

/-- The `std::filesystem::file_type` of a status whose query succeeded. -/
inductive file_type where
  | not_found
  | regular
  | directory
  | symlink
  | block
  | character
  | fifo
  | socket
  | unknown
deriving DecidableEq, Repr

/-- The result of `filesystem::status(p, ec)` / `entry.status(ec)`: `none` when
`ec` is set (the returned status then has type `file_type::none`). -/
abbrev file_status := Option file_type

/-- `filesystem::exists(s)`. -/
def file_exists : file_status → Bool
  | none => false
  | some file_type.not_found => false
  | some _ => true

/-- `filesystem::is_directory(s)`. -/
def is_directory : file_status → Bool
  | some file_type.directory => true
  | _ => false

/-- `filesystem::is_regular_file(s)`. -/
def is_regular_file : file_status → Bool
  | some file_type.regular => true
  | _ => false

/-- `static_cast<uintmax_t>(-1)`, the value `file_size(p, ec)` returns on error. -/
def file_size_error : Nat := 2 ^ 64 - 1

/-- `file_time_type::min()`, the value `last_write_time(p, ec)` returns on error. -/
def file_time_min : Int := -(2 ^ 63)

/-- What one pass observes: a filesystem snapshot and the two helpers of
`config/ConfigUtil.h`.  `J` is the type of parsed content (`Json::Value`). -/
structure Env (J : Type) where
  /-- `filesystem::status(p, ec)`; `none` when `ec` is set. -/
  status : String → file_status
  /-- `filesystem::directory_iterator(dir, ec)`: the paths of the entries the
  enumeration yields, in order; `none` when `ec` is set (the range is then
  empty). -/
  directory_iterator : String → Option (List String)
  /-- `filesystem::file_size(p, ec)`; `none` when `ec` is set. -/
  file_size : String → Option Nat
  /-- `filesystem::last_write_time(p, ec)`; `none` when `ec` is set. -/
  last_write_time : String → Option Int
  /-- `LoadConfigDetailFromFile(path, detail)`: the parsed content, `none` when
  it returns false. -/
  LoadConfigDetailFromFile : String → Option J
  /-- `IsConfigEnabled(name, detail)`. -/
  IsConfigEnabled : String → J → Bool

/-- The `(size, mTime)` pair a pass computes for a path (lines 82-83); a failed
query yields the error value of the call. -/
def signature {J : Type} (env : Env J) (path : String) : Nat × Int :=
  ((env.file_size path).getD file_size_error, (env.last_write_time path).getD file_time_min)

/-! ## Signature cache (`mFileInfoMap`) -/

/-- The map `mFileInfoMap` from file path to `(size, mTime)`. -/
abbrev FileInfoMap := List (String × (Nat × Int))

/-- The lookup `mFileInfoMap.find(filepath)`. -/
def FileInfoMap.find (m : FileInfoMap) (key : String) : Option (Nat × Int) :=
  match m with
  | [] => none
  | kv :: rest => if kv.1 = key then some kv.2 else FileInfoMap.find rest key

/-- The erasure `mFileInfoMap.erase(key)`. -/
def FileInfoMap.erase (m : FileInfoMap) (key : String) : FileInfoMap :=
  m.filter (fun kv => kv.1 ≠ key)

/-- The assignment `mFileInfoMap[filepath] = value`. -/
def FileInfoMap.assign (m : FileInfoMap) (key : String) (value : Nat × Int) : FileInfoMap :=
  (key, value) :: FileInfoMap.erase m key

/-! ## Instance configs, the diff and the manager -/

/-- An `InstanceConfig(configName, detail, dirName)`. -/
structure InstanceConfig (J : Type) where
  mConfigName : String
  mDetail : J
  mDirName : String
deriving DecidableEq, Repr

/-- The three sequences of an `InstanceConfigDiff`. -/
structure InstanceConfigDiff (J : Type) where
  mAdded : List (InstanceConfig J)
  mModified : List (InstanceConfig J)
  mRemoved : List String
deriving DecidableEq, Repr

/-- Modelled from the spec: the Active Registry (`InstanceConfigManager`, whose
source is not part of the files at hand) holds the running entities keyed by
name.  It is kept as an association list in which the first entity of a name is
the one stored under that name. -/
structure InstanceConfigManager (J : Type) where
  mInstanceConfigMap : List (InstanceConfig J)

/-- Modelled from the spec: `FindConfigByName(name)` returns the active entity
stored under `name`, if any. -/
def InstanceConfigManager.FindConfigByName {J : Type} (mgr : InstanceConfigManager J)
    (name : String) : Option (InstanceConfig J) :=
  mgr.mInstanceConfigMap.find? (fun c => c.mConfigName = name)

/-- Modelled from the spec: `GetAllConfigNames()` enumerates the set of active
names, each name once. -/
def InstanceConfigManager.GetAllConfigNames {J : Type} (mgr : InstanceConfigManager J) :
    List String :=
  (mgr.mInstanceConfigMap.map (fun c => c.mConfigName)).dedup

/-- Modelled from the spec: the external apply step.  Entities named in
`removed` are torn down, then the entities of `added` and `modified` are stored
under their names. -/
def InstanceConfigManager.apply {J : Type} (mgr : InstanceConfigManager J)
    (diff : InstanceConfigDiff J) : InstanceConfigManager J :=
  let kept := mgr.mInstanceConfigMap.filter (fun c => decide (c.mConfigName ∉ diff.mRemoved))
  let store := fun (m : List (InstanceConfig J)) (c : InstanceConfig J) =>
    c :: m.filter (fun c0 => c0.mConfigName ≠ c.mConfigName)
  InstanceConfigManager.mk ((diff.mAdded ++ diff.mModified).foldl store kept)

/-! ## The pass -/

/-- The watcher's own state: the configured directories and the signature cache. -/
structure InstanceConfigWatcher where
  mSourceDir : List String
  mFileInfoMap : FileInfoMap
deriving DecidableEq, Repr

/-- The locals and members a pass mutates while it walks the directories. -/
structure ScanState (J : Type) where
  configSet : List String
  mFileInfoMap : FileInfoMap
  diff : InstanceConfigDiff J

/-- The body of the inner loop (lines 63-138) for one directory entry. -/
def scanEntry {J : Type} [DecidableEq J] (env : Env J) (mgr : InstanceConfigManager J)
    (dir : String) (st : ScanState J) (path : String) : ScanState J :=
  let configName := stem path
  if configName = "region_config" then st
  else if !is_regular_file (env.status path) then st
  else if configName ∈ st.configSet then st
  else
    let configSet := configName :: st.configSet
    let iter := st.mFileInfoMap.find path
    let size := (env.file_size path).getD file_size_error
    let mTime := (env.last_write_time path).getD file_time_min
    match iter with
    | none =>
      let fileInfoMap := st.mFileInfoMap.assign path (size, mTime)
      match env.LoadConfigDetailFromFile path with
      | none => ScanState.mk configSet fileInfoMap st.diff
      | some detail =>
        if !env.IsConfigEnabled configName detail then
          ScanState.mk configSet fileInfoMap st.diff
        else
          let config := InstanceConfig.mk configName detail dir
          ScanState.mk configSet fileInfoMap
            (InstanceConfigDiff.mk (st.diff.mAdded ++ [config]) st.diff.mModified st.diff.mRemoved)
    | some cached =>
      if cached.1 ≠ size ∨ cached.2 ≠ mTime then
        let fileInfoMap := st.mFileInfoMap.assign path (size, mTime)
        match env.LoadConfigDetailFromFile path with
        | none => ScanState.mk configSet fileInfoMap st.diff
        | some detail =>
          if !env.IsConfigEnabled configName detail then
            match mgr.FindConfigByName configName with
            | some _ =>
              ScanState.mk configSet fileInfoMap
                (InstanceConfigDiff.mk st.diff.mAdded st.diff.mModified
                  (st.diff.mRemoved ++ [configName]))
            | none => ScanState.mk configSet fileInfoMap st.diff
          else
            match mgr.FindConfigByName configName with
            | none =>
              let config := InstanceConfig.mk configName detail dir
              ScanState.mk configSet fileInfoMap
                (InstanceConfigDiff.mk (st.diff.mAdded ++ [config]) st.diff.mModified
                  st.diff.mRemoved)
            | some p =>
              if detail ≠ p.mDetail then
                let config := InstanceConfig.mk configName detail dir
                ScanState.mk configSet fileInfoMap
                  (InstanceConfigDiff.mk st.diff.mAdded (st.diff.mModified ++ [config])
                    st.diff.mRemoved)
              else ScanState.mk configSet fileInfoMap st.diff
      else ScanState.mk configSet st.mFileInfoMap st.diff

/-- The body of the outer loop (lines 37-139) for one configured directory.

The range-for of line 54 opens the enumeration with an error code and advances
it with `operator++`, which takes none and throws `filesystem_error`.
`increment_throws dir` tells that the enumeration of `dir`, once opened, fails
while it advances; `env.directory_iterator dir` then holds the entries yielded
before the failure.  The result is `Except.error` with the state the exception
leaves behind, and `Except.ok` with the state after the directory otherwise. -/
def scanDir {J : Type} [DecidableEq J] (env : Env J) (mgr : InstanceConfigManager J)
    (increment_throws : String → Bool) (st : ScanState J) (dir : String) :
    Except (ScanState J) (ScanState J) :=
  match env.status dir with
  | none => Except.ok st
  | some t =>
    if !file_exists (some t) then Except.ok st
    else if !is_directory (some t) then Except.ok st
    else
      match env.directory_iterator dir with
      | none => Except.ok st
      | some entries =>
        if increment_throws dir then Except.error (entries.foldl (scanEntry env mgr dir) st)
        else Except.ok (entries.foldl (scanEntry env mgr dir) st)

/-- The outer loop (lines 36-140) over the configured directories, in order,
up to the first exception. -/
def scanDirs {J : Type} [DecidableEq J] (env : Env J) (mgr : InstanceConfigManager J)
    (increment_throws : String → Bool) :
    ScanState J → List String → Except (ScanState J) (ScanState J)
  | st, [] => Except.ok st
  | st, dir :: rest =>
    match scanDir env mgr increment_throws st dir with
    | Except.error thrown => Except.error thrown
    | Except.ok next => scanDirs env mgr increment_throws next rest

/-- The removal loop (lines 141-148) over the active names. -/
def removeLoop {J : Type} (configSet : List String) (names : List String)
    (diff : InstanceConfigDiff J) : InstanceConfigDiff J :=
  names.foldl
    (fun d name =>
      if name ∉ configSet then InstanceConfigDiff.mk d.mAdded d.mModified (d.mRemoved ++ [name])
      else d)
    diff

/-- The keys collected for pruning (lines 149-155). -/
def keysToRemove (configSet : List String) (m : FileInfoMap) : List String :=
  m.foldl (fun keys item => if stem item.1 ∉ configSet then keys ++ [item.1] else keys) []

/-- `InstanceConfigWatcher::CheckConfigDiff`, one call.  `Except.ok` holds the
returned diff and the watcher with its updated `mFileInfoMap`; `Except.error`
holds the watcher as the `filesystem_error` that escapes the call leaves it: no
diff is returned, the directories after the failing one are not scanned, and
`mFileInfoMap` keeps what the entries processed so far stored, unpruned. -/
def CheckConfigDiffOrThrow {J : Type} [DecidableEq J] (env : Env J)
    (increment_throws : String → Bool) (mgr : InstanceConfigManager J)
    (w : InstanceConfigWatcher) :
    Except InstanceConfigWatcher (InstanceConfigDiff J × InstanceConfigWatcher) :=
  match scanDirs env mgr increment_throws
      (ScanState.mk [] w.mFileInfoMap (InstanceConfigDiff.mk [] [] [])) w.mSourceDir with
  | Except.error thrown => Except.error (InstanceConfigWatcher.mk w.mSourceDir thrown.mFileInfoMap)
  | Except.ok st =>
    let diff := removeLoop st.configSet mgr.GetAllConfigNames st.diff
    let fileInfoMap := (keysToRemove st.configSet st.mFileInfoMap).foldl FileInfoMap.erase
      st.mFileInfoMap
    Except.ok (diff, InstanceConfigWatcher.mk w.mSourceDir fileInfoMap)

/-- `InstanceConfigWatcher::CheckConfigDiff`: one pass over a snapshot in which
no enumeration fails while it advances, so that the call returns.  Returns the
diff and the watcher with its updated `mFileInfoMap`.  (The second case of the
match does not occur: see `CheckConfigDiffOrThrow_eq_ok`.) -/
def CheckConfigDiff {J : Type} [DecidableEq J] (env : Env J) (mgr : InstanceConfigManager J)
    (w : InstanceConfigWatcher) : InstanceConfigDiff J × InstanceConfigWatcher :=
  match CheckConfigDiffOrThrow env (fun _ => false) mgr w with
  | Except.ok result => result
  | Except.error left => (InstanceConfigDiff.mk [] [] [], left)

/-! ## Vocabulary of the statements -/

/-- The `(directory, entry path)` pairs the two nested loops of a pass visit, in
order: the entries of every configured directory that passes the checks of
lines 38-53 and whose enumeration succeeds. -/
def enumerate {J : Type} (env : Env J) : List String → List (String × String)
  | [] => []
  | dir :: rest =>
    (if file_exists (env.status dir) && is_directory (env.status dir) then
      ((env.directory_iterator dir).getD []).map (fun path => (dir, path))
    else []) ++ enumerate env rest

/-- The inner-loop body run over a sequence of `(directory, entry path)` pairs. -/
def scanEntries {J : Type} [DecidableEq J] (env : Env J) (mgr : InstanceConfigManager J)
    (st : ScanState J) (items : List (String × String)) : ScanState J :=
  items.foldl (fun s x => scanEntry env mgr x.1 s x.2) st

/-- The entry `(dir, path)` is the processed file of its name among `items`: it
is enumerated, is a regular file, its name is not the reserved one, and no
regular entry enumerated before it derives the same name. -/
def Processed {J : Type} (env : Env J) (items : List (String × String))
    (dir path : String) : Prop :=
  ∃ pre post, items = pre ++ (dir, path) :: post ∧
    is_regular_file (env.status path) = true ∧
    stem path ≠ "region_config" ∧
    ∀ x ∈ pre, is_regular_file (env.status x.2) = true → stem x.2 ≠ stem path

/-- All names of a diff: those of `added`, of `modified`, then `removed`. -/
def diffNames {J : Type} (diff : InstanceConfigDiff J) : List String :=
  diff.mAdded.map (fun c => c.mConfigName) ++ diff.mModified.map (fun c => c.mConfigName)
    ++ diff.mRemoved

/-- The part of a diff that concerns one name. -/
def InstanceConfigDiff.named {J : Type} (diff : InstanceConfigDiff J) (name : String) :
    InstanceConfigDiff J :=
  InstanceConfigDiff.mk (diff.mAdded.filter (fun c => c.mConfigName = name))
    (diff.mModified.filter (fun c => c.mConfigName = name))
    (diff.mRemoved.filter (fun n => n = name))

/-- Concatenation of two diffs, category by category. -/
def InstanceConfigDiff.append {J : Type} (a b : InstanceConfigDiff J) : InstanceConfigDiff J :=
  InstanceConfigDiff.mk (a.mAdded ++ b.mAdded) (a.mModified ++ b.mModified)
    (a.mRemoved ++ b.mRemoved)

/-- What lines 81-138 append to the diff for a processed entry, as a function
of the cached signature found for its path. -/
def outcome {J : Type} [DecidableEq J] (env : Env J) (mgr : InstanceConfigManager J)
    (dir path : String) (cached : Option (Nat × Int)) : InstanceConfigDiff J :=
  (scanEntry env mgr dir
    (ScanState.mk [] (match cached with
      | none => []
      | some v => [(path, v)]) (InstanceConfigDiff.mk [] [] []))
    path).diff

/-! ## Concrete snapshots used to exercise the statements -/

/-- A snapshot with the one directory `D`, which lists `paths`, all of them
regular files.  Parsed content is a number and a config is enabled when its
content is not `0`. -/
def snapshot (paths : List String) (sig : String → Nat × Int) (load : String → Option Nat) :
    Env Nat where
  status := fun p =>
    if p = "D" then some file_type.directory
    else if p ∈ paths then some file_type.regular
    else some file_type.not_found
  directory_iterator := fun p => if p = "D" then some paths else none
  file_size := fun p => some (sig p).1
  last_write_time := fun p => some (sig p).2
  LoadConfigDetailFromFile := load
  IsConfigEnabled := fun _ detail => decide (detail ≠ 0)

/-- `D` holds the single file `D/x.json`, with signature `(1, 1)` and content `c`
(or unparsable when `c` is `none`). -/
def oneFile (c : Option Nat) : Env Nat :=
  snapshot ["D/x.json"] (fun _ => (1, 1)) (fun _ => c)

/-- `D` holds `D/x.yaml` then `D/x.json`; only `D/x.yaml` parses, to content `c`,
and its modification time is `t`. -/
def twoFiles (c : Nat) (t : Int) : Env Nat :=
  snapshot ["D/x.yaml", "D/x.json"] (fun p => if p = "D/x.yaml" then (1, t) else (1, 1))
    (fun p => if p = "D/x.yaml" then some c else none)

/-- `D` holds the single file `D/region_config.json`, with signature `(1, 1)`. -/
def reservedFile : Env Nat :=
  snapshot ["D/region_config.json"] (fun _ => (1, 1)) (fun _ => some 1)

/-- A watcher on `D` with an empty signature cache. -/
def freshWatcher : InstanceConfigWatcher := InstanceConfigWatcher.mk ["D"] []

/-- A watcher on `D` that cached `D/x.json` with the older signature `(1, 0)`. -/
def staleWatcher : InstanceConfigWatcher :=
  InstanceConfigWatcher.mk ["D"] [("D/x.json", (1, 0))]

/-- A watcher on `D` that cached `D/y.json`. -/
def watcherOfY : InstanceConfigWatcher :=
  InstanceConfigWatcher.mk ["D"] [("D/y.json", (1, 1))]

/-- No active entity. -/
def noneActive : InstanceConfigManager Nat := InstanceConfigManager.mk []

/-- The entity `name` is active with content `c`. -/
def oneActive (name : String) (c : Nat) : InstanceConfigManager Nat :=
  InstanceConfigManager.mk [InstanceConfig.mk name c "D"]

/-! ## Vocabulary of the later statements -/

/-- The seen-name set of a pass: `configSet` when the directory loops end
(line 140). -/
def seenNames {J : Type} [DecidableEq J] (env : Env J) (mgr : InstanceConfigManager J)
    (w : InstanceConfigWatcher) : List String :=
  match scanDirs env mgr (fun _ => false)
      (ScanState.mk [] w.mFileInfoMap (InstanceConfigDiff.mk [] [] [])) w.mSourceDir with
  | Except.ok st => st.configSet
  | Except.error thrown => thrown.configSet

/-- The snapshot `env` with `listing` as its directory enumeration. -/
def withListing {J : Type} (env : Env J) (listing : String → Option (List String)) : Env J :=
  Env.mk env.status listing env.file_size env.last_write_time env.LoadConfigDetailFromFile
    env.IsConfigEnabled

/-- The snapshot `env` whose directory enumerations keep only the entries whose
path satisfies `keep`. -/
def filterListing {J : Type} (env : Env J) (keep : String → Bool) : Env J :=
  withListing env (fun dir => (env.directory_iterator dir).map (List.filter keep))

/-- The snapshot `env` with `load` as the result of `LoadConfigDetailFromFile`. -/
def withLoad {J : Type} (env : Env J) (load : String → Option J) : Env J :=
  Env.mk env.status env.directory_iterator env.file_size env.last_write_time load
    env.IsConfigEnabled

/-- Stated from the claim's words: the enumerated entries with every later
duplicate removed, a later duplicate being a regular entry whose derived name
was already derived by an earlier-enumerated regular entry (`earlier` holds the
names derived so far by regular entries). -/
def removeLaterDuplicates {J : Type} (env : Env J) :
    List String → List (String × String) → List (String × String)
  | _, [] => []
  | earlier, x :: rest =>
    if is_regular_file (env.status x.2) then
      if stem x.2 ∈ earlier then removeLaterDuplicates env earlier rest
      else x :: removeLaterDuplicates env (stem x.2 :: earlier) rest
    else x :: removeLaterDuplicates env earlier rest

/-- A configured directory the pass skips: its status query fails, it does not
exist, it is not a directory, or its enumeration fails. -/
def dirUnavailable {J : Type} (env : Env J) (dir : String) : Prop :=
  env.status dir = none ∨ file_exists (env.status dir) = false
    ∨ is_directory (env.status dir) = false ∨ env.directory_iterator dir = none

/-! ## The end-to-end scenario -/

/-- The directory `D` of the scenario: it holds `D/app.json` with the given
content `(enable, version)` and modification time, or nothing when the file is
deleted.  A config is enabled when its `enable` member is true. -/
def appSnapshot (file : Option ((Bool × Nat) × Int)) : Env (Bool × Nat) where
  status := fun p =>
    if p = "D" then some file_type.directory
    else if p = "D/app.json" ∧ file.isSome then some file_type.regular
    else some file_type.not_found
  directory_iterator := fun p =>
    if p = "D" then some (if file.isSome then ["D/app.json"] else []) else none
  file_size := fun p => if p = "D/app.json" ∧ file.isSome then some 32 else none
  last_write_time := fun p => if p = "D/app.json" then file.map (fun f => f.2) else none
  LoadConfigDetailFromFile := fun p => if p = "D/app.json" then file.map (fun f => f.1) else none
  IsConfigEnabled := fun _ detail => detail.1

/-- Pass 1: `app.json` is `{"enable": true, "version": 1}`; empty cache and registry. -/
def scenarioPass1 : InstanceConfigDiff (Bool × Nat) × InstanceConfigWatcher :=
  CheckConfigDiff (appSnapshot (some ((true, 1), 1))) (InstanceConfigManager.mk [])
    (InstanceConfigWatcher.mk ["D"] [])

/-- The registry after the diff of pass 1 is applied. -/
def scenarioRegistry1 : InstanceConfigManager (Bool × Nat) :=
  (InstanceConfigManager.mk []).apply scenarioPass1.1

/-- Pass 2: `app.json` edited to `{"enable": true, "version": 2}`. -/
def scenarioPass2 : InstanceConfigDiff (Bool × Nat) × InstanceConfigWatcher :=
  CheckConfigDiff (appSnapshot (some ((true, 2), 2))) scenarioRegistry1 scenarioPass1.2

/-- The registry after the diff of pass 2 is applied. -/
def scenarioRegistry2 : InstanceConfigManager (Bool × Nat) :=
  scenarioRegistry1.apply scenarioPass2.1

/-- Pass 3: `app.json` edited to `{"enable": false, "version": 2}`. -/
def scenarioPass3 : InstanceConfigDiff (Bool × Nat) × InstanceConfigWatcher :=
  CheckConfigDiff (appSnapshot (some ((false, 2), 3))) scenarioRegistry2 scenarioPass2.2

/-- The registry after the diff of pass 3 is applied. -/
def scenarioRegistry3 : InstanceConfigManager (Bool × Nat) :=
  scenarioRegistry2.apply scenarioPass3.1

/-- Pass 4: `app.json` deleted. -/
def scenarioPass4 : InstanceConfigDiff (Bool × Nat) × InstanceConfigWatcher :=
  CheckConfigDiff (appSnapshot none) scenarioRegistry3 scenarioPass3.2

/-! ## More concrete snapshots -/

/-- `D` holds the regular file `D/x.json`, whose size query fails; it parses to
content `1`. -/
def sizeFails : Env Nat :=
  Env.mk (oneFile (some 1)).status (oneFile (some 1)).directory_iterator (fun _ => none)
    (oneFile (some 1)).last_write_time (oneFile (some 1)).LoadConfigDetailFromFile
    (oneFile (some 1)).IsConfigEnabled

/-- `D` lists the sub-directory `D/sub`, the entry `D/broken.json` whose status
query fails, and then the regular file `D/x.json`. -/
def withSubdir : Env Nat :=
  Env.mk
    (fun p =>
      if p = "D" ∨ p = "D/sub" then some file_type.directory
      else if p = "D/broken.json" then none
      else if p = "D/x.json" then some file_type.regular
      else some file_type.not_found)
    (fun p => if p = "D" then some ["D/sub", "D/broken.json", "D/x.json"] else none)
    (fun _ => some 1) (fun _ => some 1) (fun _ => some 1) (fun _ detail => decide (detail ≠ 0))

/-- A watcher on the missing directory `E` and then on `D`. -/
def twoDirWatcher : InstanceConfigWatcher := InstanceConfigWatcher.mk ["E", "D"] []

/-! ## A directory whose enumeration fails while it advances -/

/-- The directories `E` and `D`: `E` lists `E/a.json`, `D` lists `D/x.json`, both
regular files with signature `(1, 1)` that parse to content `1`. -/
def twoDirs : Env Nat where
  status := fun p =>
    if p = "E" ∨ p = "D" then some file_type.directory
    else if p = "E/a.json" ∨ p = "D/x.json" then some file_type.regular
    else some file_type.not_found
  directory_iterator := fun p =>
    if p = "E" then some ["E/a.json"] else if p = "D" then some ["D/x.json"] else none
  file_size := fun _ => some 1
  last_write_time := fun _ => some 1
  LoadConfigDetailFromFile := fun _ => some 1
  IsConfigEnabled := fun _ detail => decide (detail ≠ 0)

/-- The enumeration of `E` yields its entries and then fails while it advances
(a read error of the directory); that of `D` runs to its end. -/
def failsInE : String → Bool := fun dir => decide (dir = "E")

/-! ## MetricExportor: the records of the Go direct metrics

The embedding of the per-map loops of
`MetricExportor::SerializeGoDirectMetricsListToLogGroupMap` (lines 226-250) and
`MetricExportor::SerializeGoDirectMetricsListToString` (lines 263-274) in
`core/monitor/MetricExportor.cpp`.  A metrics map is the list of its
`(key, value)` pairs in iteration order.  A `std::string` is represented byte
for byte: each character of a key stands for one byte of it, so that lengths
and positions are those of `length()`, `compare` and `substr`.  The constants `METRIC_KEY_LABEL`,
`METRIC_KEY_VALUE` and `METRIC_KEY_CATEGORY` of `MetricConstants.h` are
parameters.  The log time, the region lookup and the JSON writer are left out:
a record keeps the label object itself. -/

/-- The three-way comparison of `std::string::compare` on the characters of two
strings: negative, zero or positive. -/
def compareChars : List Char → List Char → Int
  | [], [] => 0
  | [], _ :: _ => -1
  | _ :: _, [] => 1
  | a :: as, b :: bs => if a < b then -1 else if b < a then 1 else compareChars as bs

/-- The call `s.compare(str)`. -/
def string_compare (s str : String) : Int := compareChars s.data str.data

/-- The call `s.compare(0, len, str)`: the first `len` characters of `s` (all of
`s` when it is shorter) compared with `str`. -/
def string_compare_head (s : String) (len : Nat) (str : String) : Int :=
  compareChars (s.data.take len) str.data

/-- The call `s.substr(pos)`: `none` when `pos > s.size()`, where the call throws
`std::out_of_range`.  The characters of `s` are its bytes. -/
def substr (s : String) (pos : Nat) : Option String :=
  if pos > s.data.length then none else some (String.mk (s.data.drop pos))

/-- The assignment `object[key] = value` on a `Json::Value` object. -/
def jsonSet (object : List (String × String)) (key value : String) : List (String × String) :=
  object.filter (fun kv => kv.1 ≠ key) ++ [(key, value)]

/-- What lines 226-250 produce for one metrics map: the contents added to the
log, in order, and the object `metricsRecordLabel` that line 247 serialises
into the last content. -/
structure LogRecord where
  contents : List (String × String)
  metricsRecordLabel : List (String × String)
deriving DecidableEq, Repr

/-- What lines 259-274 produce for one metrics map: the members of
`metricsRecordJson` other than the time and the label object, and the object
`metricsRecordLabel`. -/
structure JsonRecord where
  metricsRecordJson : List (String × String)
  metricsRecordLabel : List (String × String)
deriving DecidableEq, Repr

/-- The loop body of lines 227-244 of `SerializeGoDirectMetricsListToLogGroupMap`
for one metric; `none` when `substr` throws. -/
def SerializeGoDirectMetricsListToLogGroupMap.metric (METRIC_KEY_LABEL METRIC_KEY_CATEGORY : String)
    (log : LogRecord) (metric : String × String) : Option LogRecord :=
  -- category
  if string_compare metric.1 "label.metric_category" = 0 then
    some (LogRecord.mk (log.contents ++ [(METRIC_KEY_CATEGORY, metric.2)]) log.metricsRecordLabel)
  -- label
  else if string_compare_head metric.1 METRIC_KEY_LABEL.data.length METRIC_KEY_LABEL ≠ 0 then
    match substr metric.1 (METRIC_KEY_LABEL.data.length + 1) with
    | none => none
    | some key => some (LogRecord.mk log.contents (jsonSet log.metricsRecordLabel key metric.2))
  -- value
  else some (LogRecord.mk (log.contents ++ [(metric.1, metric.2)]) log.metricsRecordLabel)

/-- Lines 226-244 of `SerializeGoDirectMetricsListToLogGroupMap` for one metrics
map; `none` when `substr` throws. -/
def SerializeGoDirectMetricsListToLogGroupMap.record
    (METRIC_KEY_LABEL METRIC_KEY_CATEGORY : String) (metrics : List (String × String)) :
    Option LogRecord :=
  metrics.foldl
    (fun acc metric =>
      match acc with
      | none => none
      | some log =>
        SerializeGoDirectMetricsListToLogGroupMap.metric METRIC_KEY_LABEL METRIC_KEY_CATEGORY
          log metric)
    (some (LogRecord.mk [] []))

/-- The loop body of lines 263-273 of `SerializeGoDirectMetricsListToString` for
one metric; `none` when `substr` throws. -/
def SerializeGoDirectMetricsListToString.metric
    (METRIC_KEY_LABEL METRIC_KEY_VALUE METRIC_KEY_CATEGORY : String)
    (json : JsonRecord) (metric : String × String) : Option JsonRecord :=
  if string_compare metric.1 "label.metric_category" = 0 then
    some (JsonRecord.mk (jsonSet json.metricsRecordJson METRIC_KEY_CATEGORY metric.2)
      json.metricsRecordLabel)
  else if string_compare_head metric.1 METRIC_KEY_LABEL.data.length METRIC_KEY_LABEL = 0 then
    match substr metric.1 (METRIC_KEY_LABEL.data.length + 1) with
    | none => none
    | some key =>
      some (JsonRecord.mk json.metricsRecordJson (jsonSet json.metricsRecordLabel key metric.2))
  else
    match substr metric.1 (METRIC_KEY_VALUE.data.length + 1) with
    | none => none
    | some key =>
      some (JsonRecord.mk (jsonSet json.metricsRecordJson key metric.2) json.metricsRecordLabel)

/-- Lines 259-273 of `SerializeGoDirectMetricsListToString` for one metrics map;
`none` when `substr` throws. -/
def SerializeGoDirectMetricsListToString.record
    (METRIC_KEY_LABEL METRIC_KEY_VALUE METRIC_KEY_CATEGORY : String)
    (metrics : List (String × String)) : Option JsonRecord :=
  metrics.foldl
    (fun acc metric =>
      match acc with
      | none => none
      | some json =>
        SerializeGoDirectMetricsListToString.metric METRIC_KEY_LABEL METRIC_KEY_VALUE
          METRIC_KEY_CATEGORY json metric)
    (some (JsonRecord.mk [] []))

/-- A metrics map as the Go side exports it: one label and one counter. -/
def goMetrics : List (String × String) :=
  [("label.project", "p"), ("value.proc_in_records_total", "7")]

/-- `D` holds `D/x.yaml`, content `1`; the cache still holds the `D/x.json` that
it replaced. -/
def renamedFile : Env Nat :=
  snapshot ["D/x.yaml"] (fun _ => (1, 1)) (fun _ => some 1)

/-! # Theorems

## Signature cache lemmas -/

theorem FileInfoMap.find_filter_key (g : String → Bool) (m : FileInfoMap) (key : String) :
    FileInfoMap.find (m.filter (fun kv => g kv.1)) key
      = if g key then FileInfoMap.find m key else none := by
  induction m with
  | nil => simp [FileInfoMap.find]
  | cons kv rest ih =>
    by_cases hk : kv.1 = key
    · by_cases hg : g key
      · simp [List.filter, hk, hg, FileInfoMap.find]
      · simp [List.filter, hk, hg, FileInfoMap.find, ih]
    · by_cases hg : g kv.1
      · simp [List.filter, hk, hg, FileInfoMap.find, ih]
      · simp [List.filter, hk, hg, FileInfoMap.find, ih]

theorem FileInfoMap.find_erase (m : FileInfoMap) (k key : String) :
    FileInfoMap.find (FileInfoMap.erase m k) key
      = if key = k then none else FileInfoMap.find m key := by
  have h := FileInfoMap.find_filter_key (fun x => decide (x ≠ k)) m key
  simp only [FileInfoMap.erase]
  rw [h]
  by_cases hk : key = k <;> simp [hk]

theorem FileInfoMap.find_assign (m : FileInfoMap) (k key : String) (v : Nat × Int) :
    FileInfoMap.find (FileInfoMap.assign m k v) key
      = if key = k then some v else FileInfoMap.find m key := by
  by_cases hk : key = k
  · simp [FileInfoMap.assign, FileInfoMap.find, hk]
  · have hk2 : ¬ k = key := fun h => hk h.symm
    simp [FileInfoMap.assign, FileInfoMap.find, hk, hk2, FileInfoMap.find_erase]

theorem foldl_erase_eq (keys : List String) (m : FileInfoMap) :
    keys.foldl FileInfoMap.erase m = m.filter (fun kv => decide (kv.1 ∉ keys)) := by
  induction keys generalizing m with
  | nil => simp
  | cons k rest ih =>
    simp only [List.foldl_cons, ih, FileInfoMap.erase, List.filter_filter]
    apply List.filter_congr
    intro kv _
    by_cases h1 : kv.1 = k <;> by_cases h2 : kv.1 ∈ rest <;> simp [h1, h2]

theorem keysToRemove_eq (configSet : List String) (m : FileInfoMap) :
    keysToRemove configSet m
      = (m.filter (fun kv => decide (stem kv.1 ∉ configSet))).map (fun kv => kv.1) := by
  unfold keysToRemove
  have key : ∀ (l : FileInfoMap) (init : List String),
      l.foldl (fun keys item => if stem item.1 ∉ configSet then keys ++ [item.1] else keys) init
        = init ++ (l.filter (fun kv => decide (stem kv.1 ∉ configSet))).map (fun kv => kv.1) := by
    intro l
    induction l with
    | nil => intro init; simp
    | cons x rest ih =>
      intro init
      by_cases hx : stem x.1 ∈ configSet
      · simp only [List.foldl_cons, hx, not_true_eq_false, if_false]
        rw [ih]
        simp [List.filter, hx]
      · simp only [List.foldl_cons, hx, not_false_eq_true, if_true]
        rw [ih]
        simp [List.filter, hx]
  rw [key]
  simp

theorem prune_eq (configSet : List String) (m : FileInfoMap) :
    (keysToRemove configSet m).foldl FileInfoMap.erase m
      = m.filter (fun kv => decide (stem kv.1 ∈ configSet)) := by
  rw [foldl_erase_eq, keysToRemove_eq]
  apply List.filter_congr
  intro kv hkv
  by_cases hs : stem kv.1 ∈ configSet
  · simp only [hs, decide_True, decide_eq_true_eq, List.mem_map, List.mem_filter, not_exists,
      not_and, decide_not, Bool.not_eq_true', decide_eq_false_iff_not, not_not]
    intro x hx hxk
    rw [← hxk] at hs
    exact hx.2 hs
  · simp only [hs, decide_False, decide_eq_false_iff_not, not_not, List.mem_map, List.mem_filter]
    exact ⟨kv, ⟨hkv, by simp [hs]⟩, rfl⟩

theorem removeLoop_eq {J : Type} (configSet names : List String) (diff : InstanceConfigDiff J) :
    removeLoop configSet names diff
      = InstanceConfigDiff.mk diff.mAdded diff.mModified
          (diff.mRemoved ++ names.filter (fun n => decide (n ∉ configSet))) := by
  unfold removeLoop
  induction names generalizing diff with
  | nil => simp
  | cons x rest ih =>
    by_cases hx : x ∈ configSet
    · simp only [List.foldl_cons, hx, not_true_eq_false, if_false]
      rw [ih]
      simp [List.filter, hx]
    · simp only [List.foldl_cons, hx, not_false_eq_true, if_true]
      rw [ih]
      simp [List.filter, hx]

/-! ## One entry -/

/-- The three guards of lines 65-78 under which an entry is processed. -/
theorem scanEntry_skip {J : Type} [DecidableEq J] (env : Env J) (mgr : InstanceConfigManager J)
    (dir path : String) (st : ScanState J)
    (h : ¬ (is_regular_file (env.status path) = true ∧ stem path ≠ "region_config"
      ∧ stem path ∉ st.configSet)) :
    scanEntry env mgr dir st path = st := by
  unfold scanEntry
  by_cases h1 : stem path = "region_config"
  · simp [h1]
  · by_cases h2 : is_regular_file (env.status path) = true
    · have h3 : stem path ∈ st.configSet := by
        by_contra h3
        exact h ⟨h2, h1, h3⟩
      simp [h1, h2, h3]
    · simp [h1, h2]

theorem scanEntry_eq {J : Type} [DecidableEq J] (env : Env J) (mgr : InstanceConfigManager J)
    (dir path : String) (st : ScanState J)
    (h1 : is_regular_file (env.status path) = true) (h2 : stem path ≠ "region_config")
    (h3 : stem path ∉ st.configSet) :
    scanEntry env mgr dir st path
      = ScanState.mk (stem path :: st.configSet)
          (if st.mFileInfoMap.find path = some (signature env path) then st.mFileInfoMap
            else st.mFileInfoMap.assign path (signature env path))
          (st.diff.append (outcome env mgr dir path (st.mFileInfoMap.find path))) := by
  unfold outcome scanEntry signature
  simp only [h1, h2, h3, if_false, Bool.not_true, List.not_mem_nil, Bool.false_eq_true,
    not_false_eq_true, if_true]
  cases hf : st.mFileInfoMap.find path with
  | none =>
    simp only [FileInfoMap.find]
    cases hl : env.LoadConfigDetailFromFile path with
    | none => simp [InstanceConfigDiff.append]
    | some detail =>
      by_cases he : env.IsConfigEnabled (stem path) detail = true
      · simp [he, InstanceConfigDiff.append]
      · simp [he, InstanceConfigDiff.append]
  | some cached =>
    obtain ⟨c1, c2⟩ := cached
    simp only [FileInfoMap.find, if_true]
    by_cases hc : c1 ≠ (env.file_size path).getD file_size_error
        ∨ c2 ≠ (env.last_write_time path).getD file_time_min
    · have hne : ¬ (c1 = (env.file_size path).getD file_size_error
          ∧ c2 = (env.last_write_time path).getD file_time_min) := by
        intro heq
        rcases hc with hc | hc
        · exact hc heq.1
        · exact hc heq.2
      simp only [hc, if_true]
      cases hl : env.LoadConfigDetailFromFile path with
      | none => simp [InstanceConfigDiff.append, hne]
      | some detail =>
        by_cases he : env.IsConfigEnabled (stem path) detail = true
        · cases hm : mgr.FindConfigByName (stem path) with
          | none => simp [he, hne, InstanceConfigDiff.append]
          | some p =>
            by_cases hd : detail = p.mDetail
            · have he2 := he
              rw [hd] at he2
              simp [he2, hne, hd, InstanceConfigDiff.append]
            · simp [he, hne, hd, InstanceConfigDiff.append]
        · cases hm : mgr.FindConfigByName (stem path) with
          | none => simp [he, hne, InstanceConfigDiff.append]
          | some p => simp [he, hne, InstanceConfigDiff.append]
    · have heq : c1 = (env.file_size path).getD file_size_error
          ∧ c2 = (env.last_write_time path).getD file_time_min := by
        simp only [not_or, not_not] at hc
        exact hc
      simp [heq.1, heq.2, InstanceConfigDiff.append]

theorem outcome_shape {J : Type} [DecidableEq J] (env : Env J) (mgr : InstanceConfigManager J)
    (dir path : String) (cached : Option (Nat × Int)) :
    outcome env mgr dir path cached = InstanceConfigDiff.mk [] [] []
    ∨ (∃ c : InstanceConfig J, c.mConfigName = stem path
        ∧ outcome env mgr dir path cached = InstanceConfigDiff.mk [c] [] [])
    ∨ (∃ c : InstanceConfig J, c.mConfigName = stem path
        ∧ outcome env mgr dir path cached = InstanceConfigDiff.mk [] [c] [])
    ∨ outcome env mgr dir path cached = InstanceConfigDiff.mk [] [] [stem path] := by
  unfold outcome scanEntry
  by_cases h2 : stem path = "region_config"
  · simp [h2]
  by_cases h1 : is_regular_file (env.status path) = true
  swap
  · simp [h1, h2]
  simp only [h1, h2, if_false, Bool.not_true, List.not_mem_nil, Bool.false_eq_true,
    not_false_eq_true, if_true]
  cases cached with
  | none =>
    simp only [FileInfoMap.find]
    cases hl : env.LoadConfigDetailFromFile path with
    | none => simp
    | some detail =>
      by_cases he : env.IsConfigEnabled (stem path) detail = true
      · simp [he]
      · simp [he]
  | some cached =>
    simp only [FileInfoMap.find, if_true]
    by_cases hc : cached.1 ≠ (env.file_size path).getD file_size_error
        ∨ cached.2 ≠ (env.last_write_time path).getD file_time_min
    · simp only [hc, if_true]
      cases hl : env.LoadConfigDetailFromFile path with
      | none => simp
      | some detail =>
        by_cases he : env.IsConfigEnabled (stem path) detail = true
        · cases hm : mgr.FindConfigByName (stem path) with
          | none => simp [he]
          | some p =>
            by_cases hd : detail = p.mDetail
            · have he2 := he
              rw [hd] at he2
              simp [he2, hd]
            · simp [he, hd]
        · cases hm : mgr.FindConfigByName (stem path) with
          | none => simp [he]
          | some p => simp [he]
    · simp [hc]

theorem outcome_unchanged {J : Type} [DecidableEq J] (env : Env J) (mgr : InstanceConfigManager J)
    (dir path : String) :
    outcome env mgr dir path (some (signature env path)) = InstanceConfigDiff.mk [] [] [] := by
  unfold outcome scanEntry signature
  by_cases h2 : stem path = "region_config"
  · simp [h2]
  by_cases h1 : is_regular_file (env.status path) = true
  · simp [h1, h2, FileInfoMap.find]
  · simp [h1, h2]

theorem outcome_load_failed {J : Type} [DecidableEq J] (env : Env J)
    (mgr : InstanceConfigManager J) (dir path : String) (cached : Option (Nat × Int))
    (hl : env.LoadConfigDetailFromFile path = none) :
    outcome env mgr dir path cached = InstanceConfigDiff.mk [] [] [] := by
  unfold outcome scanEntry
  by_cases h2 : stem path = "region_config"
  · simp [h2]
  by_cases h1 : is_regular_file (env.status path) = true
  swap
  · simp [h1, h2]
  cases cached with
  | none => simp [h1, h2, hl, FileInfoMap.find]
  | some c =>
    by_cases hc : c.1 ≠ (env.file_size path).getD file_size_error
        ∨ c.2 ≠ (env.last_write_time path).getD file_time_min
    · simp only [h1, h2, if_false, Bool.not_true, List.not_mem_nil, Bool.false_eq_true,
        not_false_eq_true, if_true, FileInfoMap.find, hc, hl]
    · simp only [h1, h2, if_false, Bool.not_true, List.not_mem_nil, Bool.false_eq_true,
        not_false_eq_true, if_true, FileInfoMap.find, hc]

theorem outcome_new_enabled {J : Type} [DecidableEq J] (env : Env J)
    (mgr : InstanceConfigManager J) (dir path : String) (detail : J)
    (h1 : is_regular_file (env.status path) = true) (h2 : stem path ≠ "region_config")
    (hl : env.LoadConfigDetailFromFile path = some detail)
    (he : env.IsConfigEnabled (stem path) detail = true) :
    outcome env mgr dir path none
      = InstanceConfigDiff.mk [InstanceConfig.mk (stem path) detail dir] [] [] := by
  unfold outcome scanEntry
  simp [h1, h2, hl, he, FileInfoMap.find]

theorem outcome_changed {J : Type} [DecidableEq J] (env : Env J)
    (mgr : InstanceConfigManager J) (dir path : String) (cached : Nat × Int) (detail : J)
    (h1 : is_regular_file (env.status path) = true) (h2 : stem path ≠ "region_config")
    (hc : cached ≠ signature env path)
    (hl : env.LoadConfigDetailFromFile path = some detail) :
    outcome env mgr dir path (some cached)
      = if env.IsConfigEnabled (stem path) detail = true then
          match mgr.FindConfigByName (stem path) with
          | none => InstanceConfigDiff.mk [InstanceConfig.mk (stem path) detail dir] [] []
          | some p =>
            if detail ≠ p.mDetail then
              InstanceConfigDiff.mk [] [InstanceConfig.mk (stem path) detail dir] []
            else InstanceConfigDiff.mk [] [] []
        else
          match mgr.FindConfigByName (stem path) with
          | none => InstanceConfigDiff.mk [] [] []
          | some _ => InstanceConfigDiff.mk [] [] [stem path] := by
  obtain ⟨c1, c2⟩ := cached
  have hc2 : c1 ≠ (env.file_size path).getD file_size_error
      ∨ c2 ≠ (env.last_write_time path).getD file_time_min := by
    by_contra hcon
    simp only [not_or, not_not] at hcon
    apply hc
    simp [signature, hcon.1, hcon.2]
  unfold outcome scanEntry
  simp only [h1, h2, if_false, Bool.not_true, List.not_mem_nil, Bool.false_eq_true,
    not_false_eq_true, if_true, FileInfoMap.find, hc2, hl]
  by_cases he : env.IsConfigEnabled (stem path) detail = true
  · cases hm : mgr.FindConfigByName (stem path) with
    | none => simp [he]
    | some p =>
      by_cases hd : detail = p.mDetail
      · have he2 := he
        rw [hd] at he2
        simp [he2, hd]
      · simp [he, hd]
  · cases hm : mgr.FindConfigByName (stem path) with
    | none => simp [he]
    | some p => simp [he]

/-! ## The loops, flattened -/

theorem scanEntries_append {J : Type} [DecidableEq J] (env : Env J)
    (mgr : InstanceConfigManager J) (st : ScanState J) (a b : List (String × String)) :
    scanEntries env mgr st (a ++ b) = scanEntries env mgr (scanEntries env mgr st a) b := by
  simp [scanEntries, List.foldl_append]

theorem scanEntries_cons {J : Type} [DecidableEq J] (env : Env J)
    (mgr : InstanceConfigManager J) (st : ScanState J) (x : String × String)
    (rest : List (String × String)) :
    scanEntries env mgr st (x :: rest)
      = scanEntries env mgr (scanEntry env mgr x.1 st x.2) rest := by
  simp [scanEntries]

theorem scanDir_eq {J : Type} [DecidableEq J] (env : Env J) (mgr : InstanceConfigManager J)
    (increment_throws : String → Bool) (st : ScanState J) (dir : String)
    (h : increment_throws dir = false) :
    scanDir env mgr increment_throws st dir
      = Except.ok (scanEntries env mgr st (enumerate env [dir])) := by
  unfold scanDir enumerate scanEntries
  cases hs : env.status dir with
  | none => simp [file_exists, enumerate]
  | some t =>
    by_cases he : file_exists (some t) = true
    · by_cases hd : is_directory (some t) = true
      · cases hi : env.directory_iterator dir with
        | none => simp [he, hd, enumerate]
        | some entries => simp [he, hd, h, enumerate, List.foldl_map]
      · simp [he, hd, enumerate]
    · simp [he, enumerate]

theorem enumerate_cons {J : Type} (env : Env J) (dir : String) (rest : List String) :
    enumerate env (dir :: rest) = enumerate env [dir] ++ enumerate env rest := by
  simp [enumerate]

theorem foldl_scanDir_eq {J : Type} [DecidableEq J] (env : Env J)
    (mgr : InstanceConfigManager J) (increment_throws : String → Bool) (dirs : List String)
    (st : ScanState J) (h : ∀ dir ∈ dirs, increment_throws dir = false) :
    scanDirs env mgr increment_throws st dirs
      = Except.ok (scanEntries env mgr st (enumerate env dirs)) := by
  induction dirs generalizing st with
  | nil => simp [scanDirs, enumerate, scanEntries]
  | cons dir rest ih =>
    rw [enumerate_cons env dir rest, scanEntries_append, scanDirs,
      scanDir_eq env mgr increment_throws st dir (h dir (List.mem_cons_self _ _))]
    dsimp only
    rw [ih _ (fun d hd => h d (List.mem_cons_of_mem _ hd))]

/-- A call in which no enumeration of a configured directory fails while it
advances returns, and returns what `CheckConfigDiff` states. -/
theorem CheckConfigDiffOrThrow_eq_ok {J : Type} [DecidableEq J] (env : Env J)
    (increment_throws : String → Bool) (mgr : InstanceConfigManager J)
    (w : InstanceConfigWatcher) (h : ∀ dir ∈ w.mSourceDir, increment_throws dir = false) :
    CheckConfigDiffOrThrow env increment_throws mgr w = Except.ok (CheckConfigDiff env mgr w) := by
  simp only [CheckConfigDiff, CheckConfigDiffOrThrow,
    foldl_scanDir_eq env mgr increment_throws w.mSourceDir _ h,
    foldl_scanDir_eq env mgr (fun _ => false) w.mSourceDir _ (fun _ _ => rfl)]

theorem CheckConfigDiff_eq {J : Type} [DecidableEq J] (env : Env J)
    (mgr : InstanceConfigManager J) (w : InstanceConfigWatcher) :
    CheckConfigDiff env mgr w
      = (let st := scanEntries env mgr
            (ScanState.mk [] w.mFileInfoMap (InstanceConfigDiff.mk [] [] []))
            (enumerate env w.mSourceDir)
         (InstanceConfigDiff.mk st.diff.mAdded st.diff.mModified
            (st.diff.mRemoved
              ++ mgr.GetAllConfigNames.filter (fun n => decide (n ∉ st.configSet))),
          InstanceConfigWatcher.mk w.mSourceDir
            (st.mFileInfoMap.filter (fun kv => decide (stem kv.1 ∈ st.configSet))))) := by
  simp only [CheckConfigDiff, CheckConfigDiffOrThrow,
    foldl_scanDir_eq env mgr (fun _ => false) w.mSourceDir _ (fun _ _ => rfl), removeLoop_eq,
    prune_eq]

/-! ## Invariants of the entry loop -/

theorem named_append {J : Type} (a b : InstanceConfigDiff J) (n : String) :
    (a.append b).named n = (a.named n).append (b.named n) := by
  simp [InstanceConfigDiff.append, InstanceConfigDiff.named]

theorem append_empty {J : Type} (a : InstanceConfigDiff J) :
    a.append (InstanceConfigDiff.mk [] [] []) = a := by
  simp [InstanceConfigDiff.append]

theorem outcome_named_ne {J : Type} [DecidableEq J] (env : Env J)
    (mgr : InstanceConfigManager J) (dir path : String) (cached : Option (Nat × Int))
    (n : String) (h : stem path ≠ n) :
    (outcome env mgr dir path cached).named n = InstanceConfigDiff.mk [] [] [] := by
  rcases outcome_shape env mgr dir path cached with h0 | ⟨c, hc, h0⟩ | ⟨c, hc, h0⟩ | h0
  · rw [h0]; simp [InstanceConfigDiff.named]
  · rw [h0]; simp [InstanceConfigDiff.named, hc, h]
  · rw [h0]; simp [InstanceConfigDiff.named, hc, h]
  · rw [h0]; simp [InstanceConfigDiff.named, h]

theorem outcome_named_self {J : Type} [DecidableEq J] (env : Env J)
    (mgr : InstanceConfigManager J) (dir path : String) (cached : Option (Nat × Int)) :
    (outcome env mgr dir path cached).named (stem path) = outcome env mgr dir path cached := by
  rcases outcome_shape env mgr dir path cached with h0 | ⟨c, hc, h0⟩ | ⟨c, hc, h0⟩ | h0
  · rw [h0]; simp [InstanceConfigDiff.named]
  · rw [h0]; simp [InstanceConfigDiff.named, hc]
  · rw [h0]; simp [InstanceConfigDiff.named, hc]
  · rw [h0]; simp [InstanceConfigDiff.named]

/-- The seen-name set after the loop: the names it started with and the stems of
the regular, non-reserved entries. -/
theorem mem_configSet_scanEntries {J : Type} [DecidableEq J] (env : Env J)
    (mgr : InstanceConfigManager J) (items : List (String × String)) (st : ScanState J)
    (n : String) :
    n ∈ (scanEntries env mgr st items).configSet
      ↔ n ∈ st.configSet ∨ ∃ x ∈ items, is_regular_file (env.status x.2) = true
          ∧ stem x.2 ≠ "region_config" ∧ stem x.2 = n := by
  induction items generalizing st with
  | nil => simp [scanEntries]
  | cons x rest ih =>
    rw [scanEntries_cons, ih]
    by_cases hg : is_regular_file (env.status x.2) = true ∧ stem x.2 ≠ "region_config"
        ∧ stem x.2 ∉ st.configSet
    · rw [scanEntry_eq env mgr x.1 x.2 st hg.1 hg.2.1 hg.2.2]
      constructor
      · rintro (h | ⟨y, hy, h⟩)
        · rcases List.mem_cons.mp h with h | h
          · exact Or.inr ⟨x, List.mem_cons_self _ _, hg.1, hg.2.1, h.symm⟩
          · exact Or.inl h
        · exact Or.inr ⟨y, List.mem_cons_of_mem _ hy, h⟩
      · rintro (h | ⟨y, hy, h⟩)
        · exact Or.inl (List.mem_cons_of_mem _ h)
        · rcases List.mem_cons.mp hy with hy | hy
          · subst hy
            exact Or.inl (by simp [h.2.2])
          · exact Or.inr ⟨y, hy, h⟩
    · rw [scanEntry_skip env mgr x.1 x.2 st hg]
      constructor
      · rintro (h | ⟨y, hy, h⟩)
        · exact Or.inl h
        · exact Or.inr ⟨y, List.mem_cons_of_mem _ hy, h⟩
      · rintro (h | ⟨y, hy, h⟩)
        · exact Or.inl h
        · rcases List.mem_cons.mp hy with hy | hy
          · subst hy
            by_cases hin : stem y.2 ∈ st.configSet
            · rw [h.2.2] at hin
              exact Or.inl hin
            · exact absurd ⟨h.1, h.2.1, hin⟩ hg
          · exact Or.inr ⟨y, hy, h⟩

/-- A name that no processed entry of `items` derives is left alone by the loop:
its part of the diff, the cache entries of its paths and its membership in the
seen-name set stay as they were. -/
theorem scanEntries_untouched {J : Type} [DecidableEq J] (env : Env J)
    (mgr : InstanceConfigManager J) (items : List (String × String)) (st : ScanState J)
    (n : String)
    (h : ∀ x ∈ items, is_regular_file (env.status x.2) = true → stem x.2 ≠ "region_config" →
      stem x.2 ∉ st.configSet → stem x.2 ≠ n) :
    (scanEntries env mgr st items).diff.named n = st.diff.named n
    ∧ (∀ p, stem p = n →
        (scanEntries env mgr st items).mFileInfoMap.find p = st.mFileInfoMap.find p)
    ∧ (n ∈ (scanEntries env mgr st items).configSet ↔ n ∈ st.configSet) := by
  induction items generalizing st with
  | nil => simp [scanEntries]
  | cons x rest ih =>
    rw [scanEntries_cons]
    by_cases hg : is_regular_file (env.status x.2) = true ∧ stem x.2 ≠ "region_config"
        ∧ stem x.2 ∉ st.configSet
    · have hxn : stem x.2 ≠ n := h x (List.mem_cons_self _ _) hg.1 hg.2.1 hg.2.2
      have heq := scanEntry_eq env mgr x.1 x.2 st hg.1 hg.2.1 hg.2.2
      have ih2 := ih (scanEntry env mgr x.1 st x.2) (by
        intro y hy hy1 hy2 hy3
        apply h y (List.mem_cons_of_mem _ hy) hy1 hy2
        intro hin
        apply hy3
        rw [heq]
        exact List.mem_cons_of_mem _ hin)
      refine ⟨?_, ?_, ?_⟩
      · rw [ih2.1, heq]
        simp only [named_append, outcome_named_ne env mgr x.1 x.2 _ n hxn, append_empty]
      · intro p hp
        rw [ih2.2.1 p hp, heq]
        have hpx : p ≠ x.2 := by
          intro hcon
          rw [hcon] at hp
          exact hxn hp
        by_cases hc : st.mFileInfoMap.find x.2 = some (signature env x.2)
        · simp [hc]
        · simp [hc, FileInfoMap.find_assign, hpx]
      · rw [ih2.2.2, heq]
        simp only [List.mem_cons]
        constructor
        · rintro (hh | hh)
          · exact absurd hh.symm hxn
          · exact hh
        · intro hh
          exact Or.inr hh
    · rw [scanEntry_skip env mgr x.1 x.2 st hg]
      exact ih st (fun y hy => h y (List.mem_cons_of_mem _ hy))

/-- The loop on the processed entry of a name: what the pass appends for that
name is the outcome of that one entry, and its path ends up cached with its
current signature. -/
theorem scanEntries_focus {J : Type} [DecidableEq J] (env : Env J)
    (mgr : InstanceConfigManager J) (pre post : List (String × String)) (d p : String)
    (st : ScanState J)
    (h1 : is_regular_file (env.status p) = true) (h2 : stem p ≠ "region_config")
    (h3 : stem p ∉ st.configSet)
    (hpre : ∀ x ∈ pre, is_regular_file (env.status x.2) = true → stem x.2 ≠ stem p) :
    (scanEntries env mgr st (pre ++ (d, p) :: post)).diff.named (stem p)
        = (st.diff.named (stem p)).append (outcome env mgr d p (st.mFileInfoMap.find p))
    ∧ (scanEntries env mgr st (pre ++ (d, p) :: post)).mFileInfoMap.find p
        = some (signature env p)
    ∧ stem p ∈ (scanEntries env mgr st (pre ++ (d, p) :: post)).configSet := by
  rw [scanEntries_append, scanEntries_cons]
  have hA := scanEntries_untouched env mgr pre st (stem p)
    (fun x hx hx1 _ _ => hpre x hx hx1)
  have h3a : stem p ∉ (scanEntries env mgr st pre).configSet := fun hin => h3 (hA.2.2.mp hin)
  have heq := scanEntry_eq env mgr d p (scanEntries env mgr st pre) h1 h2 h3a
  have hmem : stem p ∈ (scanEntry env mgr d (scanEntries env mgr st pre) p).configSet := by
    rw [heq]
    exact List.mem_cons_self _ _
  have hB := scanEntries_untouched env mgr post
    (scanEntry env mgr d (scanEntries env mgr st pre) p) (stem p)
    (fun x _ _ _ hx3 hcon => hx3 (hcon ▸ hmem))
  refine ⟨?_, ?_, ?_⟩
  · show (scanEntries env mgr (scanEntry env mgr (d, p).1 (scanEntries env mgr st pre) (d, p).2)
      post).diff.named (stem p) = _
    rw [hB.1, heq, named_append, hA.1, outcome_named_self, hA.2.1 p rfl]
  · show (scanEntries env mgr (scanEntry env mgr (d, p).1 (scanEntries env mgr st pre) (d, p).2)
      post).mFileInfoMap.find p = _
    rw [hB.2.1 p rfl, heq]
    by_cases hc : (scanEntries env mgr st pre).mFileInfoMap.find p = some (signature env p)
    · simp [hc]
    · simp [hc, FileInfoMap.find_assign]
  · exact hB.2.2.mpr hmem

/-- A loop in which every processed entry is cached with its current signature
changes neither the diff nor the cache. -/
theorem scanEntries_quiet {J : Type} [DecidableEq J] (env : Env J)
    (mgr : InstanceConfigManager J) (items : List (String × String)) (st : ScanState J)
    (h : ∀ d q, Processed env items d q → stem q ∉ st.configSet →
      st.mFileInfoMap.find q = some (signature env q)) :
    (scanEntries env mgr st items).diff = st.diff
    ∧ (scanEntries env mgr st items).mFileInfoMap = st.mFileInfoMap := by
  induction items generalizing st with
  | nil => simp [scanEntries]
  | cons x rest ih =>
    rw [scanEntries_cons]
    by_cases hg : is_regular_file (env.status x.2) = true ∧ stem x.2 ≠ "region_config"
        ∧ stem x.2 ∉ st.configSet
    · have hx : st.mFileInfoMap.find x.2 = some (signature env x.2) :=
        h x.1 x.2 ⟨[], rest, rfl, hg.1, hg.2.1, by simp⟩ hg.2.2
      have heq := scanEntry_eq env mgr x.1 x.2 st hg.1 hg.2.1 hg.2.2
      rw [hx, outcome_unchanged, append_empty] at heq
      simp only [if_true] at heq
      have ih2 := ih (scanEntry env mgr x.1 st x.2) (by
        intro d q hq hq3
        rw [heq] at hq3 ⊢
        simp only [List.mem_cons, not_or] at hq3
        obtain ⟨pre, post, hsplit, hq1, hq2, hqpre⟩ := hq
        apply h d q ⟨x :: pre, post, by simp [hsplit], hq1, hq2, ?_⟩ hq3.2
        intro y hy hy1
        rcases List.mem_cons.mp hy with hy | hy
        · subst hy
          exact fun hc => hq3.1 hc.symm
        · exact hqpre y hy hy1)
      rw [ih2.1, ih2.2, heq]
      exact ⟨rfl, rfl⟩
    · rw [scanEntry_skip env mgr x.1 x.2 st hg]
      apply ih st
      intro d q hq hq3
      obtain ⟨pre, post, hsplit, hq1, hq2, hqpre⟩ := hq
      apply h d q ⟨x :: pre, post, by simp [hsplit], hq1, hq2, ?_⟩ hq3
      intro y hy hy1
      rcases List.mem_cons.mp hy with hy | hy
      · subst hy
        intro hc
        apply hg
        refine ⟨hy1, ?_, ?_⟩
        · rw [hc]; exact hq2
        · rw [hc]; exact hq3
      · exact hqpre y hy hy1

theorem count_diffNames_append {J : Type} (a b : InstanceConfigDiff J) (x : String) :
    (diffNames (a.append b)).count x = (diffNames a).count x + (diffNames b).count x := by
  simp only [diffNames, InstanceConfigDiff.append, List.map_append, List.count_append]
  omega

theorem mem_diffNames_append {J : Type} (a b : InstanceConfigDiff J) (x : String) :
    x ∈ diffNames (a.append b) ↔ x ∈ diffNames a ∨ x ∈ diffNames b := by
  simp only [diffNames, InstanceConfigDiff.append, List.map_append, List.mem_append]
  tauto

theorem diffNames_outcome {J : Type} [DecidableEq J] (env : Env J)
    (mgr : InstanceConfigManager J) (dir path : String) (cached : Option (Nat × Int)) :
    diffNames (outcome env mgr dir path cached) = []
    ∨ diffNames (outcome env mgr dir path cached) = [stem path] := by
  rcases outcome_shape env mgr dir path cached with h0 | ⟨c, hc, h0⟩ | ⟨c, hc, h0⟩ | h0
  · rw [h0]; simp [diffNames]
  · rw [h0]; simp [diffNames, hc]
  · rw [h0]; simp [diffNames, hc]
  · rw [h0]; simp [diffNames]

theorem diffNames_append_outcome {J : Type} [DecidableEq J] (env : Env J)
    (mgr : InstanceConfigManager J) (dir path : String) (cached : Option (Nat × Int))
    (a : InstanceConfigDiff J) (hn : (diffNames a).Nodup) (hp : stem path ∉ diffNames a) :
    (diffNames (a.append (outcome env mgr dir path cached))).Nodup
    ∧ ∀ n ∈ diffNames (a.append (outcome env mgr dir path cached)),
        n = stem path ∨ n ∈ diffNames a := by
  constructor
  · rw [List.nodup_iff_count_le_one] at hn ⊢
    intro x
    rw [count_diffNames_append]
    rcases diffNames_outcome env mgr dir path cached with h0 | h0
    · rw [h0]
      simpa using hn x
    · rw [h0]
      by_cases hx : x = stem path
      · subst hx
        rw [List.count_eq_zero_of_not_mem hp]
        simp
      · have hx2 : ¬ stem path = x := fun h => hx h.symm
        have := hn x
        simp [List.count_cons, hx2]
        exact this
  · intro n hn2
    rw [mem_diffNames_append] at hn2
    rcases hn2 with h | h
    · exact Or.inr h
    · rcases diffNames_outcome env mgr dir path cached with h0 | h0
      · rw [h0] at h; simp at h
      · rw [h0] at h
        exact Or.inl (by simpa using h)

/-- The entry loop keeps the names of the diff free of repetition and inside the
seen-name set. -/
theorem scanEntries_names_inv {J : Type} [DecidableEq J] (env : Env J)
    (mgr : InstanceConfigManager J) (items : List (String × String)) (st : ScanState J)
    (hn : (diffNames st.diff).Nodup) (hs : ∀ n ∈ diffNames st.diff, n ∈ st.configSet) :
    (diffNames (scanEntries env mgr st items).diff).Nodup
    ∧ ∀ n ∈ diffNames (scanEntries env mgr st items).diff,
        n ∈ (scanEntries env mgr st items).configSet := by
  induction items generalizing st with
  | nil => exact ⟨hn, hs⟩
  | cons x rest ih =>
    rw [scanEntries_cons]
    by_cases hg : is_regular_file (env.status x.2) = true ∧ stem x.2 ≠ "region_config"
        ∧ stem x.2 ∉ st.configSet
    · have heq := scanEntry_eq env mgr x.1 x.2 st hg.1 hg.2.1 hg.2.2
      have hstep := diffNames_append_outcome env mgr x.1 x.2 (st.mFileInfoMap.find x.2) st.diff hn
        (fun hin => hg.2.2 (hs _ hin))
      apply ih
      · rw [heq]; exact hstep.1
      · rw [heq]
        intro n hn2
        rcases hstep.2 n hn2 with h | h
        · rw [h]; exact List.mem_cons_self _ _
        · exact List.mem_cons_of_mem _ (hs n h)
    · rw [scanEntry_skip env mgr x.1 x.2 st hg]
      exact ih st hn hs

/-! ## The whole pass -/

theorem empty_append {J : Type} (a : InstanceConfigDiff J) :
    (InstanceConfigDiff.mk [] [] []).append a = a := by
  simp [InstanceConfigDiff.append]

theorem Processed.mem {J : Type} {env : Env J} {items : List (String × String)}
    {d p : String} (h : Processed env items d p) : (d, p) ∈ items := by
  obtain ⟨pre, post, hsplit, _⟩ := h
  rw [hsplit]
  simp

theorem not_mem_diffNames_iff {J : Type} (diff : InstanceConfigDiff J) (n : String) :
    n ∉ diffNames diff ↔ diff.named n = InstanceConfigDiff.mk [] [] [] := by
  simp only [diffNames, InstanceConfigDiff.named, List.mem_append, List.mem_map, not_or,
    InstanceConfigDiff.mk.injEq, List.filter_eq_nil_iff, decide_eq_true_eq]
  constructor
  · rintro ⟨⟨h1, h2⟩, h3⟩
    refine ⟨fun c hc hn => h1 ⟨c, hc, hn⟩, fun c hc hn => h2 ⟨c, hc, hn⟩, ?_⟩
    intro a ha hn
    exact h3 (hn ▸ ha)
  · rintro ⟨h1, h2, h3⟩
    refine ⟨⟨?_, ?_⟩, ?_⟩
    · rintro ⟨c, hc, hn⟩
      exact h1 c hc hn
    · rintro ⟨c, hc, hn⟩
      exact h2 c hc hn
    · intro hn
      exact h3 n hn rfl

theorem not_mem_names_iff {J : Type} (l : List (InstanceConfig J)) (n : String) :
    n ∉ l.map (fun c => c.mConfigName) ↔ l.filter (fun c => decide (c.mConfigName = n)) = [] := by
  simp only [List.mem_map, not_exists, not_and, List.filter_eq_nil_iff, decide_eq_true_eq]

theorem count_eq_length_filter_eq (l : List String) (n : String) :
    l.count n = (l.filter (fun m => decide (m = n))).length := by
  induction l with
  | nil => simp
  | cons x rest ih =>
    by_cases hx : x = n
    · simp [List.count_cons, List.filter_cons, hx, ih]
    · simp [List.count_cons, List.filter_cons, hx, ih]

/-- The part of the returned diff that concerns the name of a processed entry
is the outcome of that entry, and its path is cached with its current signature
after the pass. -/
theorem CheckConfigDiff_named {J : Type} [DecidableEq J] (env : Env J)
    (mgr : InstanceConfigManager J) (w : InstanceConfigWatcher) (d p : String)
    (hp : Processed env (enumerate env w.mSourceDir) d p) :
    (CheckConfigDiff env mgr w).1.named (stem p)
        = outcome env mgr d p (w.mFileInfoMap.find p)
    ∧ (CheckConfigDiff env mgr w).2.mFileInfoMap.find p = some (signature env p) := by
  obtain ⟨pre, post, hsplit, h1, h2, hpre⟩ := hp
  have hF := scanEntries_focus env mgr pre post d p
    (ScanState.mk [] w.mFileInfoMap (InstanceConfigDiff.mk [] [] [])) h1 h2 (by simp) hpre
  rw [← hsplit] at hF
  rw [CheckConfigDiff_eq]
  obtain ⟨hF1, hF2, hF3⟩ := hF
  constructor
  · have hfil : (mgr.GetAllConfigNames.filter (fun n => decide (n ∉
        (scanEntries env mgr (ScanState.mk [] w.mFileInfoMap (InstanceConfigDiff.mk [] [] []))
          (enumerate env w.mSourceDir)).configSet))).filter (fun n => decide (n = stem p))
        = [] := by
      rw [List.filter_eq_nil_iff]
      intro a ha hn
      simp only [List.mem_filter, decide_eq_true_eq] at ha hn
      exact ha.2 (hn ▸ hF3)
    have hnamed : ∀ (A M : List (InstanceConfig J)) (R E : List String),
        E.filter (fun n => decide (n = stem p)) = [] →
        (InstanceConfigDiff.mk A M (R ++ E)).named (stem p)
          = (InstanceConfigDiff.mk A M R).named (stem p) := by
      intro A M R E hE
      simp [InstanceConfigDiff.named, List.filter_append, hE]
    dsimp only
    rw [hnamed _ _ _ _ hfil]
    rw [hF1]
    simp [InstanceConfigDiff.named, InstanceConfigDiff.append]
  · dsimp only
    rw [FileInfoMap.find_filter_key (fun k => decide (stem k ∈ _)) _ p]
    simp [hF3, hF2]

/-- When one processed entry is the only one whose signature is not the cached
one and every active name is backed by a file of the pass, the whole diff is the
outcome of that entry. -/
theorem CheckConfigDiff_only_change {J : Type} [DecidableEq J] (env : Env J)
    (mgr : InstanceConfigManager J) (w : InstanceConfigWatcher) (d p : String)
    (hp : Processed env (enumerate env w.mSourceDir) d p)
    (hothers : ∀ d0 q, Processed env (enumerate env w.mSourceDir) d0 q → q ≠ p →
      w.mFileInfoMap.find q = some (signature env q))
    (hactive : ∀ n ∈ mgr.GetAllConfigNames, ∃ x ∈ enumerate env w.mSourceDir,
      is_regular_file (env.status x.2) = true ∧ stem x.2 ≠ "region_config" ∧ stem x.2 = n) :
    (CheckConfigDiff env mgr w).1 = outcome env mgr d p (w.mFileInfoMap.find p) := by
  obtain ⟨pre, post, hsplit, h1, h2, hpre⟩ := hp
  rw [CheckConfigDiff_eq]
  dsimp only
  have hfil : mgr.GetAllConfigNames.filter (fun n => decide (n ∉
      (scanEntries env mgr (ScanState.mk [] w.mFileInfoMap (InstanceConfigDiff.mk [] [] []))
        (enumerate env w.mSourceDir)).configSet)) = [] := by
    rw [List.filter_eq_nil_iff]
    intro a ha hn
    simp only [decide_eq_true_eq] at hn
    apply hn
    rw [mem_configSet_scanEntries]
    exact Or.inr (hactive a ha)
  rw [hfil, List.append_nil]
  generalize hinit : ScanState.mk [] w.mFileInfoMap (InstanceConfigDiff.mk [] [] []) = init
  have hinitS : init.configSet = [] := by rw [← hinit]
  have hinitM : init.mFileInfoMap = w.mFileInfoMap := by rw [← hinit]
  have hinitD : init.diff = InstanceConfigDiff.mk [] [] [] := by rw [← hinit]
  rw [hsplit, scanEntries_append, scanEntries_cons]
  -- the entries before `p`
  have hQ1 := scanEntries_quiet env mgr pre init (by
    intro d0 q hq _
    obtain ⟨pre1, post1, hs1, hq1, hq2, hq3⟩ := hq
    rw [hinitM]
    apply hothers d0 q
    · exact ⟨pre1, post1 ++ (d, p) :: post, by rw [hsplit, hs1]; simp, hq1, hq2, hq3⟩
    · intro hqp
      have hmem : (d0, q) ∈ pre := by rw [hs1]; simp
      exact hpre (d0, q) hmem hq1 (by rw [hqp]))
  have hS1 : stem p ∉ (scanEntries env mgr init pre).configSet := by
    rw [mem_configSet_scanEntries, hinitS]
    rintro (h | ⟨x, hx, hx1, _, hx3⟩)
    · simp at h
    · exact hpre x hx hx1 hx3
  have heq := scanEntry_eq env mgr d p (scanEntries env mgr init pre) h1 h2 hS1
  rw [hQ1.1, hQ1.2, hinitD, hinitM, empty_append] at heq
  -- the entries after `p`
  have hQ2 := scanEntries_quiet env mgr post (scanEntry env mgr d (scanEntries env mgr init pre) p)
    (by
      intro d0 q hq hq0
      obtain ⟨pre1, post1, hs1, hq1, hq2, hq3⟩ := hq
      rw [heq] at hq0 ⊢
      simp only [List.mem_cons, not_or] at hq0
      have hqp : q ≠ p := fun hc => hq0.1 (by rw [hc])
      have hfind : w.mFileInfoMap.find q = some (signature env q) := by
        apply hothers d0 q ⟨pre ++ (d, p) :: pre1, post1, by rw [hsplit, hs1]; simp, hq1, hq2, ?_⟩
          hqp
        intro y hy hy1 hys
        rcases List.mem_append.mp hy with hy | hy
        · apply hq0.2
          rw [mem_configSet_scanEntries]
          exact Or.inr ⟨y, hy, hy1, by rw [hys]; exact hq2, hys⟩
        · rcases List.mem_cons.mp hy with hy | hy
          · subst hy
            exact hq0.1 hys.symm
          · exact hq3 y hy hy1 hys
      by_cases hc : w.mFileInfoMap.find p = some (signature env p)
      · simp [hc, hfind]
      · simp [hc, FileInfoMap.find_assign, hqp, hfind])
  show InstanceConfigDiff.mk
      (scanEntries env mgr (scanEntry env mgr d (scanEntries env mgr init pre) p) post).diff.mAdded
      (scanEntries env mgr (scanEntry env mgr d (scanEntries env mgr init pre) p) post).diff.mModified
      (scanEntries env mgr (scanEntry env mgr d (scanEntries env mgr init pre) p) post).diff.mRemoved
    = _
  rw [hQ2.1, heq]

/-! ## The claims -/

/-- Claim C1. Name uniqueness across categories: the names of the diff returned
by one pass, those of `added`, of `modified` and of `removed` taken together,
contain no name twice.  (The active names enumerated by the manager never repeat
a name.) -/
theorem CheckConfigDiff_names_unique {J : Type} [DecidableEq J] (env : Env J)
    (mgr : InstanceConfigManager J) (w : InstanceConfigWatcher) :
    (diffNames (CheckConfigDiff env mgr w).1).Nodup := by
  rw [CheckConfigDiff_eq]
  dsimp only
  have hinv := scanEntries_names_inv env mgr (enumerate env w.mSourceDir)
    (ScanState.mk [] w.mFileInfoMap (InstanceConfigDiff.mk [] [] []))
    (by simp [diffNames]) (by simp [diffNames])
  generalize scanEntries env mgr (ScanState.mk [] w.mFileInfoMap (InstanceConfigDiff.mk [] [] []))
    (enumerate env w.mSourceDir) = st at hinv
  have hshape : diffNames (InstanceConfigDiff.mk st.diff.mAdded st.diff.mModified
      (st.diff.mRemoved ++ mgr.GetAllConfigNames.filter (fun n => decide (n ∉ st.configSet))))
      = diffNames st.diff
        ++ mgr.GetAllConfigNames.filter (fun n => decide (n ∉ st.configSet)) := by
    simp [diffNames, List.append_assoc]
  rw [hshape, List.nodup_append]
  refine ⟨hinv.1, ?_, ?_⟩
  · exact List.Nodup.filter _ (List.nodup_dedup _)
  · rw [List.disjoint_left]
    intro a ha hb
    simp only [List.mem_filter, decide_eq_true_eq] at hb
    exact hb.2 (hinv.2 a ha)

theorem mem_names_foldl_store {J : Type} (l : List (InstanceConfig J))
    (kept : List (InstanceConfig J)) (n : String) :
    n ∈ (l.foldl (fun (m : List (InstanceConfig J)) (c : InstanceConfig J) =>
        c :: m.filter (fun c0 => decide (c0.mConfigName ≠ c.mConfigName))) kept).map
          (fun c => c.mConfigName)
      → n ∈ l.map (fun c => c.mConfigName) ∨ n ∈ kept.map (fun c => c.mConfigName) := by
  induction l generalizing kept with
  | nil => intro h; exact Or.inr h
  | cons c rest ih =>
    intro h
    rw [List.foldl_cons] at h
    rcases ih _ h with h2 | h2
    · exact Or.inl (by simp only [List.map_cons, List.mem_cons]; exact Or.inr h2)
    · simp only [List.map_cons, List.mem_cons, List.mem_map, List.mem_filter] at h2 ⊢
      rcases h2 with h2 | ⟨a, ⟨ha, _⟩, han⟩
      · exact Or.inl (Or.inl h2)
      · exact Or.inr ⟨a, ha, han⟩

/-- Claim C2. Stability: a second pass over the same snapshot, started from the
cache left by the first pass and from the registry obtained by applying the
first diff, returns an empty diff. -/
theorem CheckConfigDiff_stable {J : Type} [DecidableEq J] (env : Env J)
    (mgr : InstanceConfigManager J) (w : InstanceConfigWatcher) :
    (CheckConfigDiff env (mgr.apply (CheckConfigDiff env mgr w).1)
        (CheckConfigDiff env mgr w).2).1
      = InstanceConfigDiff.mk [] [] [] := by
  -- facts about the first pass
  have hcache : ∀ d q, Processed env (enumerate env w.mSourceDir) d q →
      (CheckConfigDiff env mgr w).2.mFileInfoMap.find q = some (signature env q) :=
    fun d q hq => (CheckConfigDiff_named env mgr w d q hq).2
  have hdirs : (CheckConfigDiff env mgr w).2.mSourceDir = w.mSourceDir := by
    rw [CheckConfigDiff_eq]
  have hnames : ∀ n ∈ (mgr.apply (CheckConfigDiff env mgr w).1).GetAllConfigNames,
      ∃ x ∈ enumerate env w.mSourceDir,
        is_regular_file (env.status x.2) = true ∧ stem x.2 ≠ "region_config" ∧ stem x.2 = n := by
    intro n hn
    have hinv := scanEntries_names_inv env mgr (enumerate env w.mSourceDir)
      (ScanState.mk [] w.mFileInfoMap (InstanceConfigDiff.mk [] [] []))
      (by simp [diffNames]) (by simp [diffNames])
    have hseen : ∀ m, m ∈ (scanEntries env mgr
        (ScanState.mk [] w.mFileInfoMap (InstanceConfigDiff.mk [] [] []))
        (enumerate env w.mSourceDir)).configSet →
        ∃ x ∈ enumerate env w.mSourceDir,
          is_regular_file (env.status x.2) = true ∧ stem x.2 ≠ "region_config"
            ∧ stem x.2 = m := by
      intro m hm
      rw [mem_configSet_scanEntries] at hm
      rcases hm with hm | hm
      · simp at hm
      · exact hm
    rw [CheckConfigDiff_eq] at hn
    simp only [InstanceConfigManager.GetAllConfigNames, InstanceConfigManager.apply,
      List.mem_dedup] at hn
    rcases mem_names_foldl_store _ _ n hn with h | h
    · apply hseen
      apply hinv.2
      simp only [diffNames, List.mem_append, List.map_append] at h ⊢
      rcases h with h | h
      · exact Or.inl (Or.inl h)
      · exact Or.inl (Or.inr h)
    · simp only [List.mem_map, List.mem_filter, decide_eq_true_eq, List.mem_append, not_or] at h
      obtain ⟨c, ⟨hc, _, hc2⟩, hcn⟩ := h
      apply hseen
      by_contra hnot
      apply hc2
      refine ⟨?_, hcn ▸ hnot⟩
      simp only [InstanceConfigManager.GetAllConfigNames, List.mem_dedup, List.mem_map]
      exact ⟨c, hc, rfl⟩
  -- the second pass
  generalize CheckConfigDiff env mgr w = r1 at hcache hdirs hnames
  rw [CheckConfigDiff_eq]
  dsimp only
  rw [hdirs]
  have hQ := scanEntries_quiet env (mgr.apply r1.1) (enumerate env w.mSourceDir)
    (ScanState.mk [] r1.2.mFileInfoMap (InstanceConfigDiff.mk [] [] []))
    (fun d q hq _ => hcache d q hq)
  have hfil : (mgr.apply r1.1).GetAllConfigNames.filter (fun n => decide (n ∉
      (scanEntries env (mgr.apply r1.1)
        (ScanState.mk [] r1.2.mFileInfoMap (InstanceConfigDiff.mk [] [] []))
        (enumerate env w.mSourceDir)).configSet)) = [] := by
    rw [List.filter_eq_nil_iff]
    intro a ha hn
    simp only [decide_eq_true_eq] at hn
    apply hn
    rw [mem_configSet_scanEntries]
    exact Or.inr (hnames a ha)
  rw [hfil, hQ.1]
  simp

theorem added_of_named {J : Type} (diff : InstanceConfigDiff J) (n : String)
    (c : InstanceConfig J) (h : diff.named n = InstanceConfigDiff.mk [c] [] []) :
    diff.mAdded.filter (fun c0 => decide (c0.mConfigName = n)) = [c]
    ∧ n ∉ diff.mModified.map (fun c0 => c0.mConfigName) ∧ n ∉ diff.mRemoved := by
  simp only [InstanceConfigDiff.named, InstanceConfigDiff.mk.injEq] at h
  refine ⟨h.1, (not_mem_names_iff _ _).mpr h.2.1, ?_⟩
  intro hn
  have := h.2.2
  rw [List.filter_eq_nil_iff] at this
  exact this n hn (by simp)

theorem modified_of_named {J : Type} (diff : InstanceConfigDiff J) (n : String)
    (c : InstanceConfig J) (h : diff.named n = InstanceConfigDiff.mk [] [c] []) :
    diff.mModified.filter (fun c0 => decide (c0.mConfigName = n)) = [c]
    ∧ n ∉ diff.mAdded.map (fun c0 => c0.mConfigName) ∧ n ∉ diff.mRemoved := by
  simp only [InstanceConfigDiff.named, InstanceConfigDiff.mk.injEq] at h
  refine ⟨h.2.1, (not_mem_names_iff _ _).mpr h.1, ?_⟩
  intro hn
  have := h.2.2
  rw [List.filter_eq_nil_iff] at this
  exact this n hn (by simp)

theorem removed_of_named {J : Type} (diff : InstanceConfigDiff J) (n : String)
    (h : diff.named n = InstanceConfigDiff.mk [] [] [n]) :
    diff.mRemoved.count n = 1
    ∧ n ∉ diff.mAdded.map (fun c0 => c0.mConfigName)
    ∧ n ∉ diff.mModified.map (fun c0 => c0.mConfigName) := by
  simp only [InstanceConfigDiff.named, InstanceConfigDiff.mk.injEq] at h
  refine ⟨?_, (not_mem_names_iff _ _).mpr h.1, (not_mem_names_iff _ _).mpr h.2.1⟩
  rw [count_eq_length_filter_eq, h.2.2]
  rfl

/-- Claim C3, as amended. Signature gating: when a file is the processed file of
its name (regular, not reserved, first of its name) in two consecutive passes
and has the same `(size, mTime)` pair in both, its name is in none of `added`,
`modified`, `removed` of the later pass, whatever else changed and whatever the
registry holds. -/
theorem CheckConfigDiff_signature_gating {J : Type} [DecidableEq J] (env1 env2 : Env J)
    (mgr1 mgr2 : InstanceConfigManager J) (w : InstanceConfigWatcher) (d1 d2 p : String)
    (h1 : Processed env1 (enumerate env1 w.mSourceDir) d1 p)
    (h2 : Processed env2 (enumerate env2 (CheckConfigDiff env1 mgr1 w).2.mSourceDir) d2 p)
    (hsig : signature env1 p = signature env2 p) :
    stem p ∉ diffNames (CheckConfigDiff env2 mgr2 (CheckConfigDiff env1 mgr1 w).2).1 := by
  have hc := (CheckConfigDiff_named env1 mgr1 w d1 p h1).2
  have hn := (CheckConfigDiff_named env2 mgr2 (CheckConfigDiff env1 mgr1 w).2 d2 p h2).1
  rw [hc, hsig, outcome_unchanged] at hn
  exact (not_mem_diffNames_iff _ _).mpr hn

/-- Claim C3, witness: `D/x.json` keeps its signature between two passes while
its content changes and an entity of its name is active. -/
theorem signature_gating_witness :
    Processed (oneFile (some 1)) (enumerate (oneFile (some 1)) freshWatcher.mSourceDir)
        "D" "D/x.json"
    ∧ signature (oneFile (some 1)) "D/x.json" = signature (oneFile (some 2)) "D/x.json"
    ∧ stem "D/x.json" ∉ diffNames (CheckConfigDiff (oneFile (some 2)) (oneActive "x" 1)
        (CheckConfigDiff (oneFile (some 1)) noneActive freshWatcher).2).1 := by
  have hP1 : Processed (oneFile (some 1)) (enumerate (oneFile (some 1)) freshWatcher.mSourceDir)
      "D" "D/x.json" := ⟨[], [], by decide, by decide, by decide, by simp⟩
  have hP2 : Processed (oneFile (some 2)) (enumerate (oneFile (some 2))
      (CheckConfigDiff (oneFile (some 1)) noneActive freshWatcher).2.mSourceDir)
      "D" "D/x.json" := ⟨[], [], by decide, by decide, by decide, by simp⟩
  exact ⟨hP1, by decide,
    CheckConfigDiff_signature_gating (oneFile (some 1)) (oneFile (some 2)) noneActive
      (oneActive "x" 1) freshWatcher "D" "D" "D/x.json" hP1 hP2 (by decide)⟩

/-- Claim C3, counterexample to the unamended statement: `D/x.json` is a regular
file listed in `D` in both passes with the same `(size, mTime)` pair, yet its
name `x` is in `modified` of the later pass, because the earlier-enumerated
`D/x.yaml` of the same name changed. -/
theorem signature_gating_counterexample :
    (("D", "D/x.json") ∈ enumerate (twoFiles 1 1) freshWatcher.mSourceDir
      ∧ is_regular_file ((twoFiles 1 1).status "D/x.json") = true)
    ∧ (("D", "D/x.json") ∈ enumerate (twoFiles 2 2)
          (CheckConfigDiff (twoFiles 1 1) noneActive freshWatcher).2.mSourceDir
      ∧ is_regular_file ((twoFiles 2 2).status "D/x.json") = true)
    ∧ signature (twoFiles 1 1) "D/x.json" = signature (twoFiles 2 2) "D/x.json"
    ∧ stem "D/x.json" ∈
        (CheckConfigDiff (twoFiles 2 2)
          (noneActive.apply (CheckConfigDiff (twoFiles 1 1) noneActive freshWatcher).1)
          (CheckConfigDiff (twoFiles 1 1) noneActive freshWatcher).2).1.mModified.map
            (fun c => c.mConfigName) := by
  decide

/-- Why the amended C3 speaks of a name that is not reserved: the entry
`D/region_config.json` is never processed, so an active entity named
`region_config` is removed although the file keeps its signature. -/
theorem signature_gating_reserved_example :
    signature reservedFile "D/region_config.json" = (1, 1)
    ∧ "region_config" ∈
        (CheckConfigDiff reservedFile (oneActive "region_config" 1)
          (CheckConfigDiff reservedFile noneActive freshWatcher).2).1.mRemoved := by
  decide

/-- Claim C4. Monotonic acceptance: a processed file whose path is not in the
signature cache and which loads and is enabled yields exactly one `added` entry
of its name, carrying the loaded content and the scanned directory; its name is
in neither `modified` nor `removed`. -/
theorem CheckConfigDiff_new_enabled_added {J : Type} [DecidableEq J] (env : Env J)
    (mgr : InstanceConfigManager J) (w : InstanceConfigWatcher) (d p : String) (detail : J)
    (hp : Processed env (enumerate env w.mSourceDir) d p)
    (hnew : w.mFileInfoMap.find p = none)
    (hload : env.LoadConfigDetailFromFile p = some detail)
    (hen : env.IsConfigEnabled (stem p) detail = true) :
    (CheckConfigDiff env mgr w).1.mAdded.filter (fun c => decide (c.mConfigName = stem p))
        = [InstanceConfig.mk (stem p) detail d]
    ∧ stem p ∉ (CheckConfigDiff env mgr w).1.mModified.map (fun c => c.mConfigName)
    ∧ stem p ∉ (CheckConfigDiff env mgr w).1.mRemoved := by
  have hn := (CheckConfigDiff_named env mgr w d p hp).1
  obtain ⟨_, _, _, h1, h2, _⟩ := hp
  rw [hnew, outcome_new_enabled env mgr d p detail h1 h2 hload hen] at hn
  exact added_of_named _ _ _ hn

/-- Claim C4, witness: the new file `D/x.json` with content `1`. -/
theorem new_enabled_added_witness :
    (CheckConfigDiff (oneFile (some 1)) noneActive freshWatcher).1.mAdded.filter
        (fun c => decide (c.mConfigName = stem "D/x.json"))
        = [InstanceConfig.mk (stem "D/x.json") 1 "D"]
    ∧ stem "D/x.json" ∉
        (CheckConfigDiff (oneFile (some 1)) noneActive freshWatcher).1.mModified.map
          (fun c => c.mConfigName)
    ∧ stem "D/x.json" ∉ (CheckConfigDiff (oneFile (some 1)) noneActive freshWatcher).1.mRemoved :=
  CheckConfigDiff_new_enabled_added (oneFile (some 1)) noneActive freshWatcher "D" "D/x.json" 1
    ⟨[], [], by decide, by decide, by decide, by simp⟩ (by decide) (by decide) (by decide)

/-- Claim C5. Changed-and-enabled decision: for a processed file cached with a
different signature that loads and is enabled, when the registry has no entry
of its name `added` holds exactly one entity for it, and when the registry has
an entry with other content `modified` holds exactly one entity for it, with the
loaded content and the scanned directory; the name is in no other category. -/
theorem CheckConfigDiff_changed_enabled {J : Type} [DecidableEq J] (env : Env J)
    (mgr : InstanceConfigManager J) (w : InstanceConfigWatcher) (d p : String)
    (cached : Nat × Int) (detail : J)
    (hp : Processed env (enumerate env w.mSourceDir) d p)
    (hc : w.mFileInfoMap.find p = some cached) (hne : cached ≠ signature env p)
    (hload : env.LoadConfigDetailFromFile p = some detail)
    (hen : env.IsConfigEnabled (stem p) detail = true) :
    (mgr.FindConfigByName (stem p) = none →
      (CheckConfigDiff env mgr w).1.mAdded.filter (fun c => decide (c.mConfigName = stem p))
          = [InstanceConfig.mk (stem p) detail d]
      ∧ stem p ∉ (CheckConfigDiff env mgr w).1.mModified.map (fun c => c.mConfigName)
      ∧ stem p ∉ (CheckConfigDiff env mgr w).1.mRemoved)
    ∧ (∀ e, mgr.FindConfigByName (stem p) = some e → e.mDetail ≠ detail →
      (CheckConfigDiff env mgr w).1.mModified.filter (fun c => decide (c.mConfigName = stem p))
          = [InstanceConfig.mk (stem p) detail d]
      ∧ stem p ∉ (CheckConfigDiff env mgr w).1.mAdded.map (fun c => c.mConfigName)
      ∧ stem p ∉ (CheckConfigDiff env mgr w).1.mRemoved) := by
  have hn := (CheckConfigDiff_named env mgr w d p hp).1
  obtain ⟨_, _, _, h1, h2, _⟩ := hp
  rw [hc, outcome_changed env mgr d p cached detail h1 h2 hne hload] at hn
  simp only [hen, if_true] at hn
  constructor
  · intro hfind
    rw [hfind] at hn
    exact added_of_named _ _ _ hn
  · intro e hfind hdiff
    rw [hfind] at hn
    have hd : detail ≠ e.mDetail := fun h => hdiff h.symm
    simp only [hd, ne_eq, not_false_eq_true, if_true] at hn
    exact modified_of_named _ _ _ hn

/-- Claim C5, witness: `D/x.json` changed to content `2`, once with no active
entity and once with `x` active with content `1`. -/
theorem changed_enabled_witness :
    ((CheckConfigDiff (oneFile (some 2)) noneActive staleWatcher).1.mAdded.filter
        (fun c => decide (c.mConfigName = stem "D/x.json"))
        = [InstanceConfig.mk (stem "D/x.json") 2 "D"])
    ∧ ((CheckConfigDiff (oneFile (some 2)) (oneActive "x" 1) staleWatcher).1.mModified.filter
        (fun c => decide (c.mConfigName = stem "D/x.json"))
        = [InstanceConfig.mk (stem "D/x.json") 2 "D"]) :=
  ⟨((CheckConfigDiff_changed_enabled (oneFile (some 2)) noneActive staleWatcher "D" "D/x.json"
      (1, 0) 2 ⟨[], [], by decide, by decide, by decide, by simp⟩ (by decide) (by decide)
      (by decide) (by decide)).1 (by decide)).1,
   ((CheckConfigDiff_changed_enabled (oneFile (some 2)) (oneActive "x" 1) staleWatcher "D"
      "D/x.json" (1, 0) 2 ⟨[], [], by decide, by decide, by decide, by simp⟩ (by decide)
      (by decide) (by decide) (by decide)).2 (InstanceConfig.mk "x" 1 "D") (by decide)
      (by decide)).1⟩

/-- Claim C6. Disable-while-active: for a processed file cached with a different
signature that loads and is disabled while the registry has an entry of its name
`X`, `removed` holds `X` exactly once and neither `added` nor `modified` names
`X`; when every other processed file is cached with its current signature and
every active name is backed by a file of the pass, the diff is `removed = [X]`
with `added` and `modified` empty. -/
theorem CheckConfigDiff_disabled_active_removed {J : Type} [DecidableEq J] (env : Env J)
    (mgr : InstanceConfigManager J) (w : InstanceConfigWatcher) (d p : String)
    (cached : Nat × Int) (detail : J) (e : InstanceConfig J)
    (hp : Processed env (enumerate env w.mSourceDir) d p)
    (hc : w.mFileInfoMap.find p = some cached) (hne : cached ≠ signature env p)
    (hload : env.LoadConfigDetailFromFile p = some detail)
    (hdis : env.IsConfigEnabled (stem p) detail = false)
    (hact : mgr.FindConfigByName (stem p) = some e) :
    ((CheckConfigDiff env mgr w).1.mRemoved.count (stem p) = 1
      ∧ stem p ∉ (CheckConfigDiff env mgr w).1.mAdded.map (fun c => c.mConfigName)
      ∧ stem p ∉ (CheckConfigDiff env mgr w).1.mModified.map (fun c => c.mConfigName))
    ∧ ((∀ d0 q, Processed env (enumerate env w.mSourceDir) d0 q → q ≠ p →
          w.mFileInfoMap.find q = some (signature env q)) →
       (∀ n ∈ mgr.GetAllConfigNames, ∃ x ∈ enumerate env w.mSourceDir,
          is_regular_file (env.status x.2) = true ∧ stem x.2 ≠ "region_config"
            ∧ stem x.2 = n) →
       (CheckConfigDiff env mgr w).1 = InstanceConfigDiff.mk [] [] [stem p]) := by
  have hout : outcome env mgr d p (w.mFileInfoMap.find p)
      = InstanceConfigDiff.mk [] [] [stem p] := by
    obtain ⟨_, _, _, h1, h2, _⟩ := hp
    rw [hc, outcome_changed env mgr d p cached detail h1 h2 hne hload, hact]
    simp [hdis]
  constructor
  · have hn := (CheckConfigDiff_named env mgr w d p hp).1
    rw [hout] at hn
    exact removed_of_named _ _ hn
  · intro hothers hactive
    rw [CheckConfigDiff_only_change env mgr w d p hp hothers hactive, hout]

/-- Claim C6, witness: `D/x.json` changed to the disabled content `0` while `x`
is active; it is the only file, so the diff is `removed = [x]`. -/
theorem disabled_active_removed_witness :
    (CheckConfigDiff (oneFile (some 0)) (oneActive "x" 1) staleWatcher).1.mRemoved.count
        (stem "D/x.json") = 1
    ∧ (CheckConfigDiff (oneFile (some 0)) (oneActive "x" 1) staleWatcher).1
        = InstanceConfigDiff.mk [] [] [stem "D/x.json"] := by
  have h := CheckConfigDiff_disabled_active_removed (oneFile (some 0)) (oneActive "x" 1)
    staleWatcher "D" "D/x.json" (1, 0) 0 (InstanceConfig.mk "x" 1 "D")
    ⟨[], [], by decide, by decide, by decide, by simp⟩ (by decide) (by decide) (by decide)
    (by decide) (by decide)
  refine ⟨h.1.1, h.2 ?_ ?_⟩
  · intro d0 q hq hne
    have hmem := hq.mem
    have hq2 : q = "D/x.json" := by
      have : enumerate (oneFile (some 0)) staleWatcher.mSourceDir = [("D", "D/x.json")] := by
        decide
      rw [this] at hmem
      simp only [List.mem_singleton, Prod.mk.injEq] at hmem
      exact hmem.2
    exact absurd hq2 hne
  · intro n hn
    have hn2 : n = "x" := by
      have : (oneActive "x" 1).GetAllConfigNames = ["x"] := by decide
      rw [this] at hn
      simpa using hn
    subst hn2
    exact ⟨("D", "D/x.json"), by decide, by decide, by decide, by decide⟩

/-- Claim C7. Disable-while-inactive: for a processed file cached with a
different signature that loads and is disabled while the registry has no entry
of its name, the name is in none of `added`, `modified`, `removed`; when every
other processed file is cached with its current signature and every active name
is backed by a file of the pass, the whole diff is empty. -/
theorem CheckConfigDiff_disabled_inactive_noop {J : Type} [DecidableEq J] (env : Env J)
    (mgr : InstanceConfigManager J) (w : InstanceConfigWatcher) (d p : String)
    (cached : Nat × Int) (detail : J)
    (hp : Processed env (enumerate env w.mSourceDir) d p)
    (hc : w.mFileInfoMap.find p = some cached) (hne : cached ≠ signature env p)
    (hload : env.LoadConfigDetailFromFile p = some detail)
    (hdis : env.IsConfigEnabled (stem p) detail = false)
    (hinact : mgr.FindConfigByName (stem p) = none) :
    stem p ∉ diffNames (CheckConfigDiff env mgr w).1
    ∧ ((∀ d0 q, Processed env (enumerate env w.mSourceDir) d0 q → q ≠ p →
          w.mFileInfoMap.find q = some (signature env q)) →
       (∀ n ∈ mgr.GetAllConfigNames, ∃ x ∈ enumerate env w.mSourceDir,
          is_regular_file (env.status x.2) = true ∧ stem x.2 ≠ "region_config"
            ∧ stem x.2 = n) →
       (CheckConfigDiff env mgr w).1 = InstanceConfigDiff.mk [] [] []) := by
  have hout : outcome env mgr d p (w.mFileInfoMap.find p) = InstanceConfigDiff.mk [] [] [] := by
    obtain ⟨_, _, _, h1, h2, _⟩ := hp
    rw [hc, outcome_changed env mgr d p cached detail h1 h2 hne hload, hinact]
    simp [hdis]
  constructor
  · have hn := (CheckConfigDiff_named env mgr w d p hp).1
    rw [hout] at hn
    exact (not_mem_diffNames_iff _ _).mpr hn
  · intro hothers hactive
    rw [CheckConfigDiff_only_change env mgr w d p hp hothers hactive, hout]

/-- Claim C7, witness: `D/x.json` changed and still disabled, nothing active. -/
theorem disabled_inactive_noop_witness :
    stem "D/x.json" ∉ diffNames (CheckConfigDiff (oneFile (some 0)) noneActive staleWatcher).1
    ∧ (CheckConfigDiff (oneFile (some 0)) noneActive staleWatcher).1
        = InstanceConfigDiff.mk [] [] [] := by
  have h := CheckConfigDiff_disabled_inactive_noop (oneFile (some 0)) noneActive
    staleWatcher "D" "D/x.json" (1, 0) 0
    ⟨[], [], by decide, by decide, by decide, by simp⟩ (by decide) (by decide) (by decide)
    (by decide) (by decide)
  refine ⟨h.1, h.2 ?_ ?_⟩
  · intro d0 q hq hne
    have hmem := hq.mem
    have hq2 : q = "D/x.json" := by
      have : enumerate (oneFile (some 0)) staleWatcher.mSourceDir = [("D", "D/x.json")] := by
        decide
      rw [this] at hmem
      simp only [List.mem_singleton, Prod.mk.injEq] at hmem
      exact hmem.2
    exact absurd hq2 hne
  · intro n hn
    have : noneActive.GetAllConfigNames = [] := by decide
    rw [this] at hn
    simp at hn

/-- Claim C8. Content-equality no-op: for a processed file cached with a
different signature that loads and is enabled with content equal to the content
stored in the registry entry of its name, the name is in none of `added`,
`modified`, `removed`, and the signature cache maps the path to the new
signature after the pass. -/
theorem CheckConfigDiff_same_content_noop {J : Type} [DecidableEq J] (env : Env J)
    (mgr : InstanceConfigManager J) (w : InstanceConfigWatcher) (d p : String)
    (cached : Nat × Int) (detail : J) (e : InstanceConfig J)
    (hp : Processed env (enumerate env w.mSourceDir) d p)
    (hc : w.mFileInfoMap.find p = some cached) (hne : cached ≠ signature env p)
    (hload : env.LoadConfigDetailFromFile p = some detail)
    (hen : env.IsConfigEnabled (stem p) detail = true)
    (hact : mgr.FindConfigByName (stem p) = some e) (hsame : detail = e.mDetail) :
    stem p ∉ diffNames (CheckConfigDiff env mgr w).1
    ∧ (CheckConfigDiff env mgr w).2.mFileInfoMap.find p = some (signature env p) := by
  subst hsame
  have hn := CheckConfigDiff_named env mgr w d p hp
  obtain ⟨_, _, _, h1, h2, _⟩ := hp
  rw [hc, outcome_changed env mgr d p cached e.mDetail h1 h2 hne hload, hact] at hn
  simp only [hen, if_true, ne_eq, not_true_eq_false, if_false] at hn
  exact ⟨(not_mem_diffNames_iff _ _).mpr hn.1, hn.2⟩

/-- Claim C8, witness: `D/x.json` touched (new signature) with the content `1`
that the active entity `x` already has. -/
theorem same_content_noop_witness :
    stem "D/x.json" ∉ diffNames (CheckConfigDiff (oneFile (some 1)) (oneActive "x" 1)
        staleWatcher).1
    ∧ (CheckConfigDiff (oneFile (some 1)) (oneActive "x" 1) staleWatcher).2.mFileInfoMap.find
        "D/x.json" = some (signature (oneFile (some 1)) "D/x.json") :=
  CheckConfigDiff_same_content_noop (oneFile (some 1)) (oneActive "x" 1) staleWatcher "D"
    "D/x.json" (1, 0) 1 (InstanceConfig.mk "x" 1 "D")
    ⟨[], [], by decide, by decide, by decide, by simp⟩ (by decide) (by decide) (by decide)
    (by decide) (by decide) (by decide)

/-- Claim C9. Load-failure containment: when the processed file of a name `X`,
new to the cache or cached with another signature, fails to load while the
registry holds an entity named `X`, `X` is in none of `added`, `modified`,
`removed`. -/
theorem CheckConfigDiff_load_failure_contained {J : Type} [DecidableEq J] (env : Env J)
    (mgr : InstanceConfigManager J) (w : InstanceConfigWatcher) (d p : String)
    (e : InstanceConfig J)
    (hp : Processed env (enumerate env w.mSourceDir) d p)
    (_hc : w.mFileInfoMap.find p ≠ some (signature env p))
    (hload : env.LoadConfigDetailFromFile p = none)
    (_hact : mgr.FindConfigByName (stem p) = some e) :
    stem p ∉ (CheckConfigDiff env mgr w).1.mAdded.map (fun c => c.mConfigName)
    ∧ stem p ∉ (CheckConfigDiff env mgr w).1.mModified.map (fun c => c.mConfigName)
    ∧ stem p ∉ (CheckConfigDiff env mgr w).1.mRemoved := by
  have hn := (CheckConfigDiff_named env mgr w d p hp).1
  rw [outcome_load_failed env mgr d p _ hload] at hn
  have h := (not_mem_diffNames_iff _ _).mpr hn
  simp only [diffNames, List.mem_append, not_or] at h
  exact ⟨h.1.1, h.1.2, h.2⟩

/-- Claim C9, witness: `D/x.json` changed and no longer parses while `x` is
active. -/
theorem load_failure_contained_witness :
    stem "D/x.json" ∉ (CheckConfigDiff (oneFile none) (oneActive "x" 1) staleWatcher).1.mAdded.map
        (fun c => c.mConfigName)
    ∧ stem "D/x.json" ∉
        (CheckConfigDiff (oneFile none) (oneActive "x" 1) staleWatcher).1.mModified.map
          (fun c => c.mConfigName)
    ∧ stem "D/x.json" ∉ (CheckConfigDiff (oneFile none) (oneActive "x" 1) staleWatcher).1.mRemoved :=
  CheckConfigDiff_load_failure_contained (oneFile none) (oneActive "x" 1) staleWatcher "D"
    "D/x.json" (InstanceConfig.mk "x" 1 "D")
    ⟨[], [], by decide, by decide, by decide, by simp⟩ (by decide) (by decide) (by decide)

/-- Claim C10. Deletion: an active name `Y` that is not in the seen-name set of
the pass (no regular, non-reserved enumerated entry derives it) is in `removed`
exactly once and in neither `added` nor `modified`, and after the pass the
signature cache holds no path whose derived name is `Y`. -/
theorem CheckConfigDiff_deleted_removed {J : Type} [DecidableEq J] (env : Env J)
    (mgr : InstanceConfigManager J) (w : InstanceConfigWatcher) (Y : String)
    (hact : Y ∈ mgr.GetAllConfigNames)
    (habs : ∀ x ∈ enumerate env w.mSourceDir, is_regular_file (env.status x.2) = true →
      stem x.2 ≠ "region_config" → stem x.2 ≠ Y) :
    (CheckConfigDiff env mgr w).1.mRemoved.count Y = 1
    ∧ Y ∉ (CheckConfigDiff env mgr w).1.mAdded.map (fun c => c.mConfigName)
    ∧ Y ∉ (CheckConfigDiff env mgr w).1.mModified.map (fun c => c.mConfigName)
    ∧ ∀ kv ∈ (CheckConfigDiff env mgr w).2.mFileInfoMap, stem kv.1 ≠ Y := by
  have hU := scanEntries_untouched env mgr (enumerate env w.mSourceDir)
    (ScanState.mk [] w.mFileInfoMap (InstanceConfigDiff.mk [] [] [])) Y
    (fun x hx hx1 hx2 _ => habs x hx hx1 hx2)
  rw [CheckConfigDiff_eq]
  dsimp only
  generalize scanEntries env mgr (ScanState.mk [] w.mFileInfoMap (InstanceConfigDiff.mk [] [] []))
    (enumerate env w.mSourceDir) = st at hU
  obtain ⟨hU1, _, hU3⟩ := hU
  have hYS : Y ∉ st.configSet := fun h => by simpa using hU3.mp h
  have hYn : Y ∉ diffNames st.diff := by
    rw [not_mem_diffNames_iff, hU1]
    simp [InstanceConfigDiff.named]
  simp only [diffNames, List.mem_append, not_or] at hYn
  refine ⟨?_, hYn.1.1, hYn.1.2, ?_⟩
  · rw [List.count_append, List.count_eq_zero_of_not_mem hYn.2,
      List.count_filter (by simpa using hYS)]
    simp only [InstanceConfigManager.GetAllConfigNames, List.count_dedup, zero_add]
    simp only [InstanceConfigManager.GetAllConfigNames, List.mem_dedup] at hact
    simp [hact]
  · intro kv hkv hs
    simp only [List.mem_filter, decide_eq_true_eq] at hkv
    exact hYS (hs ▸ hkv.2)

/-- Claim C10, witness: the file of the active entity `y` is gone from `D`. -/
theorem deleted_removed_witness :
    "y" ∈ (oneActive "y" 1).GetAllConfigNames
    ∧ (CheckConfigDiff (oneFile (some 1)) (oneActive "y" 1) watcherOfY).1.mRemoved.count "y" = 1
    ∧ ∀ kv ∈ (CheckConfigDiff (oneFile (some 1)) (oneActive "y" 1) watcherOfY).2.mFileInfoMap,
        stem kv.1 ≠ "y" := by
  have h := CheckConfigDiff_deleted_removed (oneFile (some 1)) (oneActive "y" 1) watcherOfY "y"
    (by decide) (by decide)
  exact ⟨by decide, h.1, h.2.2.2⟩

/-! ## Listings that differ by skipped entries -/

theorem scanEntry_withListing {J : Type} [DecidableEq J] (env : Env J)
    (mgr : InstanceConfigManager J) (listing : String → Option (List String)) (dir : String)
    (st : ScanState J) (path : String) :
    scanEntry (withListing env listing) mgr dir st path = scanEntry env mgr dir st path := rfl

theorem scanEntries_withListing {J : Type} [DecidableEq J] (env : Env J)
    (mgr : InstanceConfigManager J) (listing : String → Option (List String))
    (items : List (String × String)) (st : ScanState J) :
    scanEntries (withListing env listing) mgr st items = scanEntries env mgr st items := by
  induction items generalizing st with
  | nil => rfl
  | cons x rest ih => rw [scanEntries_cons, scanEntries_cons, scanEntry_withListing, ih]

/-- Entries that are not regular files or bear the reserved name can be dropped
from the sequence the loop runs over. -/
theorem scanEntries_filter {J : Type} [DecidableEq J] (env : Env J)
    (mgr : InstanceConfigManager J) (keep : String → Bool) (items : List (String × String))
    (st : ScanState J)
    (h : ∀ x ∈ items, keep x.2 = false →
      is_regular_file (env.status x.2) = false ∨ stem x.2 = "region_config") :
    scanEntries env mgr st (items.filter (fun x => keep x.2)) = scanEntries env mgr st items := by
  induction items generalizing st with
  | nil => rfl
  | cons x rest ih =>
    have ih2 := fun st0 => ih st0 (fun y hy => h y (List.mem_cons_of_mem _ hy))
    by_cases hk : keep x.2 = true
    · rw [List.filter_cons_of_pos (by simpa using hk), scanEntries_cons, scanEntries_cons, ih2]
    · rw [List.filter_cons_of_neg (by simpa using hk), scanEntries_cons, ih2]
      have hx := h x (List.mem_cons_self _ _) (by simpa using hk)
      rw [scanEntry_skip]
      rintro ⟨h1, h2, _⟩
      rcases hx with hx | hx
      · rw [h1] at hx; exact Bool.noConfusion hx
      · exact h2 hx

theorem enumerate_filterListing {J : Type} (env : Env J) (keep : String → Bool)
    (dirs : List String) :
    enumerate (filterListing env keep) dirs = (enumerate env dirs).filter (fun x => keep x.2) := by
  induction dirs with
  | nil => rfl
  | cons dir rest ih =>
    rw [enumerate_cons, enumerate_cons env, List.filter_append, ih]
    congr 1
    simp only [enumerate, filterListing, withListing, List.append_nil]
    by_cases hd : (file_exists (env.status dir) && is_directory (env.status dir)) = true
    · cases hl : env.directory_iterator dir with
      | none => simp [hd]
      | some entries =>
        simp only [hd, if_true, Option.map_some', Option.getD_some, List.filter_map]
        rfl
    · simp [hd]

/-- Two passes whose entry loops run over sequences with the same effect return
the same diff and leave the same cache. -/
theorem CheckConfigDiff_congr {J : Type} [DecidableEq J] (env1 env2 : Env J)
    (mgr : InstanceConfigManager J) (w1 w2 : InstanceConfigWatcher)
    (h : scanEntries env1 mgr (ScanState.mk [] w1.mFileInfoMap (InstanceConfigDiff.mk [] [] []))
          (enumerate env1 w1.mSourceDir)
        = scanEntries env2 mgr
          (ScanState.mk [] w2.mFileInfoMap (InstanceConfigDiff.mk [] [] []))
          (enumerate env2 w2.mSourceDir)) :
    (CheckConfigDiff env1 mgr w1).1 = (CheckConfigDiff env2 mgr w2).1
    ∧ (CheckConfigDiff env1 mgr w1).2.mFileInfoMap
        = (CheckConfigDiff env2 mgr w2).2.mFileInfoMap := by
  rw [CheckConfigDiff_eq, CheckConfigDiff_eq]
  dsimp only
  rw [h]
  exact ⟨rfl, rfl⟩

theorem CheckConfigDiff_filterListing {J : Type} [DecidableEq J] (env : Env J)
    (mgr : InstanceConfigManager J) (w : InstanceConfigWatcher) (keep : String → Bool)
    (h : ∀ x ∈ enumerate env w.mSourceDir, keep x.2 = false →
      is_regular_file (env.status x.2) = false ∨ stem x.2 = "region_config") :
    CheckConfigDiff (filterListing env keep) mgr w = CheckConfigDiff env mgr w := by
  have hs : scanEntries (filterListing env keep) mgr
      (ScanState.mk [] w.mFileInfoMap (InstanceConfigDiff.mk [] [] []))
      (enumerate (filterListing env keep) w.mSourceDir)
      = scanEntries env mgr (ScanState.mk [] w.mFileInfoMap (InstanceConfigDiff.mk [] [] []))
        (enumerate env w.mSourceDir) := by
    rw [enumerate_filterListing]
    show scanEntries (withListing env _) mgr _ _ = _
    rw [scanEntries_withListing, scanEntries_filter env mgr keep _ _ h]
  rw [CheckConfigDiff_eq, CheckConfigDiff_eq]
  dsimp only
  rw [hs]

/-- Later duplicates can be dropped from the sequence the loop runs over. -/
theorem scanEntries_removeLaterDuplicates {J : Type} [DecidableEq J] (env : Env J)
    (mgr : InstanceConfigManager J) (items : List (String × String)) (earlier : List String)
    (st : ScanState J)
    (h1 : ∀ n ∈ st.configSet, n ∈ earlier)
    (h2 : ∀ n ∈ earlier, n = "region_config" ∨ n ∈ st.configSet) :
    scanEntries env mgr st (removeLaterDuplicates env earlier items)
      = scanEntries env mgr st items := by
  induction items generalizing earlier st with
  | nil => rfl
  | cons x rest ih =>
    rw [scanEntries_cons]
    unfold removeLaterDuplicates
    by_cases hr : is_regular_file (env.status x.2) = true
    · by_cases he : stem x.2 ∈ earlier
      · simp only [hr, he, if_true]
        rw [ih earlier st h1 h2, scanEntry_skip]
        rintro ⟨_, hres, hset⟩
        rcases h2 _ he with h | h
        · exact hres h
        · exact hset h
      · simp only [hr, he, if_true, if_false]
        rw [scanEntries_cons]
        apply ih
        · intro n hn
          by_cases hg : stem x.2 ≠ "region_config" ∧ stem x.2 ∉ st.configSet
          · rw [scanEntry_eq env mgr x.1 x.2 st hr hg.1 hg.2] at hn
            rcases List.mem_cons.mp hn with hn | hn
            · rw [hn]; exact List.mem_cons_self _ _
            · exact List.mem_cons_of_mem _ (h1 n hn)
          · rw [scanEntry_skip env mgr x.1 x.2 st (fun hc => hg hc.2)] at hn
            exact List.mem_cons_of_mem _ (h1 n hn)
        · intro n hn
          by_cases hres : stem x.2 = "region_config"
          · rw [scanEntry_skip env mgr x.1 x.2 st (fun hc => hc.2.1 hres)]
            rcases List.mem_cons.mp hn with hn | hn
            · exact Or.inl (hn.trans hres)
            · exact h2 n hn
          · have hset : stem x.2 ∉ st.configSet := fun hc => he (h1 _ hc)
            rw [scanEntry_eq env mgr x.1 x.2 st hr hres hset]
            rcases List.mem_cons.mp hn with hn | hn
            · exact Or.inr (by rw [hn]; exact List.mem_cons_self _ _)
            · rcases h2 n hn with h | h
              · exact Or.inl h
              · exact Or.inr (List.mem_cons_of_mem _ h)
    · simp only [hr, if_false, Bool.false_eq_true]
      rw [scanEntries_cons, scanEntry_skip env mgr x.1 x.2 st (fun hc => hr hc.1)]
      exact ih earlier st h1 h2

theorem enumerate_append {J : Type} (env : Env J) (a b : List String) :
    enumerate env (a ++ b) = enumerate env a ++ enumerate env b := by
  induction a with
  | nil => simp [enumerate]
  | cons dir rest ih =>
    rw [List.cons_append, enumerate_cons, ih, enumerate_cons env dir rest, List.append_assoc]

theorem enumerate_unavailable {J : Type} (env : Env J) (dir : String)
    (h : dirUnavailable env dir) : enumerate env [dir] = [] := by
  simp only [enumerate, List.append_nil]
  by_cases hd : (file_exists (env.status dir) && is_directory (env.status dir)) = true
  · simp only [Bool.and_eq_true] at hd
    rcases h with h | h | h | h
    · rw [h] at hd; simp [file_exists] at hd
    · rw [h] at hd; simp at hd
    · rw [h] at hd; simp at hd
    · simp [h]
  · simp [hd]

theorem seenNames_eq {J : Type} [DecidableEq J] (env : Env J) (mgr : InstanceConfigManager J)
    (w : InstanceConfigWatcher) :
    seenNames env mgr w
      = (scanEntries env mgr (ScanState.mk [] w.mFileInfoMap (InstanceConfigDiff.mk [] [] []))
          (enumerate env w.mSourceDir)).configSet := by
  rw [seenNames, foldl_scanDir_eq env mgr (fun _ => false) w.mSourceDir _ (fun _ _ => rfl)]

theorem mem_seenNames_iff {J : Type} [DecidableEq J] (env : Env J)
    (mgr : InstanceConfigManager J) (w : InstanceConfigWatcher) (n : String) :
    n ∈ seenNames env mgr w ↔ ∃ x ∈ enumerate env w.mSourceDir,
      is_regular_file (env.status x.2) = true ∧ stem x.2 ≠ "region_config" ∧ stem x.2 = n := by
  rw [seenNames_eq, mem_configSet_scanEntries]
  simp

/-- The loop changes the cache only at the path of a processed entry, which it
leaves cached with its current signature. -/
theorem scanEntries_find_cases {J : Type} [DecidableEq J] (env : Env J)
    (mgr : InstanceConfigManager J) (items : List (String × String)) (st : ScanState J)
    (path : String) :
    (scanEntries env mgr st items).mFileInfoMap.find path = st.mFileInfoMap.find path
    ∨ ((scanEntries env mgr st items).mFileInfoMap.find path = some (signature env path)
        ∧ ∃ pre post d, items = pre ++ (d, path) :: post
          ∧ is_regular_file (env.status path) = true ∧ stem path ≠ "region_config"
          ∧ stem path ∉ st.configSet
          ∧ ∀ x ∈ pre, is_regular_file (env.status x.2) = true → stem x.2 ≠ stem path) := by
  induction items generalizing st with
  | nil => exact Or.inl rfl
  | cons x rest ih =>
    rw [scanEntries_cons]
    by_cases hg : is_regular_file (env.status x.2) = true ∧ stem x.2 ≠ "region_config"
        ∧ stem x.2 ∉ st.configSet
    · have heq := scanEntry_eq env mgr x.1 x.2 st hg.1 hg.2.1 hg.2.2
      rcases ih (scanEntry env mgr x.1 st x.2) with h | ⟨h, pre, post, d, hs, h1, h2, h3, h4⟩
      · by_cases hxp : x.2 = path
        · refine Or.inr ⟨?_, [], rest, x.1, ?_, hxp ▸ hg.1, hxp ▸ hg.2.1, hxp ▸ hg.2.2, by simp⟩
          · rw [h, heq, ← hxp]
            by_cases hc : st.mFileInfoMap.find x.2 = some (signature env x.2)
            · simp [hc]
            · simp [hc, FileInfoMap.find_assign]
          · rw [← hxp]; rfl
        · left
          rw [h, heq]
          have hpx : path ≠ x.2 := fun hc => hxp hc.symm
          by_cases hc : st.mFileInfoMap.find x.2 = some (signature env x.2)
          · simp [hc]
          · simp [hc, FileInfoMap.find_assign, hpx]
      · rw [heq] at h3
        simp only [List.mem_cons, not_or] at h3
        refine Or.inr ⟨h, x :: pre, post, d, by simp [hs], h1, h2, h3.2, ?_⟩
        intro y hy hy1
        rcases List.mem_cons.mp hy with hy | hy
        · subst hy
          exact fun hc => h3.1 hc.symm
        · exact h4 y hy hy1
    · rw [scanEntry_skip env mgr x.1 x.2 st hg]
      rcases ih st with h | ⟨h, pre, post, d, hs, h1, h2, h3, h4⟩
      · exact Or.inl h
      · refine Or.inr ⟨h, x :: pre, post, d, by simp [hs], h1, h2, h3, ?_⟩
        intro y hy hy1
        rcases List.mem_cons.mp hy with hy | hy
        · subst hy
          intro hc
          exact hg ⟨hy1, hc ▸ h2, hc ▸ h3⟩
        · exact h4 y hy hy1

/-- The names of the returned diff contain no name twice. -/
theorem diffNames_nodup {J : Type} [DecidableEq J] (env : Env J)
    (mgr : InstanceConfigManager J) (w : InstanceConfigWatcher) :
    (diffNames (CheckConfigDiff env mgr w).1).Nodup := by
  rw [CheckConfigDiff_eq]
  dsimp only
  have hinv := scanEntries_names_inv env mgr (enumerate env w.mSourceDir)
    (ScanState.mk [] w.mFileInfoMap (InstanceConfigDiff.mk [] [] []))
    (by simp [diffNames]) (by simp [diffNames])
  generalize scanEntries env mgr
    (ScanState.mk [] w.mFileInfoMap (InstanceConfigDiff.mk [] [] []))
    (enumerate env w.mSourceDir) = st at hinv
  have hshape : diffNames (InstanceConfigDiff.mk st.diff.mAdded st.diff.mModified
      (st.diff.mRemoved ++ mgr.GetAllConfigNames.filter (fun n => decide (n ∉ st.configSet))))
      = diffNames st.diff
        ++ mgr.GetAllConfigNames.filter (fun n => decide (n ∉ st.configSet)) := by
    simp [diffNames, List.append_assoc]
  rw [hshape, List.nodup_append]
  refine ⟨hinv.1, List.Nodup.filter _ (List.nodup_dedup _), ?_⟩
  rw [List.disjoint_left]
  intro a ha hb
  simp only [List.mem_filter, decide_eq_true_eq] at hb
  exact hb.2 (hinv.2 a ha)

/-- Claim C11. Duplicate suppression, first wins: the diff and the resulting
cache of a pass are those of the pass run on the listing with every later
duplicate removed; the diff holds every name at most once, and for the first
regular entry of a name the part of the diff that concerns the name is what the
loop body appends for that entry alone. -/
theorem CheckConfigDiff_duplicates_rejected {J : Type} [DecidableEq J] (env : Env J)
    (mgr : InstanceConfigManager J) (w : InstanceConfigWatcher)
    (listing : String → Option (List String)) (dirs : List String)
    (hlist : enumerate (withListing env listing) dirs
      = removeLaterDuplicates env [] (enumerate env w.mSourceDir)) :
    ((CheckConfigDiff env mgr w).1
        = (CheckConfigDiff (withListing env listing) mgr
            (InstanceConfigWatcher.mk dirs w.mFileInfoMap)).1
      ∧ (CheckConfigDiff env mgr w).2.mFileInfoMap
        = (CheckConfigDiff (withListing env listing) mgr
            (InstanceConfigWatcher.mk dirs w.mFileInfoMap)).2.mFileInfoMap)
    ∧ (∀ n, (diffNames (CheckConfigDiff env mgr w).1).count n ≤ 1)
    ∧ ∀ d p, Processed env (enumerate env w.mSourceDir) d p →
        (CheckConfigDiff env mgr w).1.named (stem p)
          = (scanEntry env mgr d
              (ScanState.mk [] w.mFileInfoMap (InstanceConfigDiff.mk [] [] [])) p).diff := by
  refine ⟨?_, ?_, ?_⟩
  · apply CheckConfigDiff_congr
    dsimp only
    rw [hlist, scanEntries_withListing, scanEntries_removeLaterDuplicates]
    · intro n hn; exact hn
    · intro n hn; simp at hn
  · have hnd := diffNames_nodup env mgr w
    exact List.nodup_iff_count_le_one.mp hnd
  · intro d p hp
    rw [(CheckConfigDiff_named env mgr w d p hp).1]
    obtain ⟨_, _, _, h1, h2, _⟩ := hp
    rw [scanEntry_eq env mgr d p _ h1 h2 (by simp)]
    dsimp only
    rw [empty_append]

/-- Claim C11, witness: `D/x.yaml` then `D/x.json`; the listing without the
later duplicate holds `D/x.yaml` only. -/
theorem duplicates_rejected_witness :
    (CheckConfigDiff (twoFiles 1 1) noneActive freshWatcher).1
      = (CheckConfigDiff
          (withListing (twoFiles 1 1) (fun p => if p = "D" then some ["D/x.yaml"] else none))
          noneActive (InstanceConfigWatcher.mk ["D"] freshWatcher.mFileInfoMap)).1
    ∧ (CheckConfigDiff (twoFiles 1 1) noneActive freshWatcher).1.named (stem "D/x.yaml")
      = InstanceConfigDiff.mk [InstanceConfig.mk "x" 1 "D"] [] [] := by
  have h := CheckConfigDiff_duplicates_rejected (twoFiles 1 1) noneActive freshWatcher
    (fun p => if p = "D" then some ["D/x.yaml"] else none) ["D"] (by decide)
  refine ⟨h.1.1, ?_⟩
  rw [h.2.2 "D" "D/x.yaml" ⟨[], [("D", "D/x.json")], by decide, by decide, by decide, by simp⟩]
  decide

/-- The part of claim C12 that the code keeps: a configured directory whose
status query fails, that does not exist, that is not a directory or whose
enumeration fails when it is opened is skipped; the pass returns the diff and
leaves the cache of the pass run with that directory deleted from the
configured list. -/
theorem CheckConfigDiff_unavailable_dir_skipped {J : Type} [DecidableEq J] (env : Env J)
    (mgr : InstanceConfigManager J) (before after : List String) (dir : String)
    (cache : FileInfoMap) (h : dirUnavailable env dir) :
    (CheckConfigDiff env mgr (InstanceConfigWatcher.mk (before ++ dir :: after) cache)).1
      = (CheckConfigDiff env mgr (InstanceConfigWatcher.mk (before ++ after) cache)).1
    ∧ (CheckConfigDiff env mgr
          (InstanceConfigWatcher.mk (before ++ dir :: after) cache)).2.mFileInfoMap
      = (CheckConfigDiff env mgr
          (InstanceConfigWatcher.mk (before ++ after) cache)).2.mFileInfoMap := by
  apply CheckConfigDiff_congr
  dsimp only
  rw [enumerate_append, enumerate_cons, enumerate_unavailable env dir h, List.nil_append,
    ← enumerate_append]

/-- The configured directory `E` does not exist and is skipped. -/
theorem unavailable_dir_skipped_witness :
    dirUnavailable (oneFile (some 1)) "E"
    ∧ (CheckConfigDiff (oneFile (some 1)) noneActive (InstanceConfigWatcher.mk ["E", "D"] [])).1
      = (CheckConfigDiff (oneFile (some 1)) noneActive (InstanceConfigWatcher.mk ["D"] [])).1 := by
  have hE : dirUnavailable (oneFile (some 1)) "E" := Or.inr (Or.inl (by decide))
  exact ⟨hE,
    (CheckConfigDiff_unavailable_dir_skipped (oneFile (some 1)) noneActive [] ["D"] "E" [] hE).1⟩

/-- Claim C13. End-to-end scenario: from an empty cache and registry, with each
diff applied before the next pass, pass 1 returns `added = [app]` only, pass 2
(version 2) `modified = [app]` only, pass 3 (`enable` false) `removed = [app]`
only, and pass 4 (file deleted) an empty diff, after which the cache has no
entry for `D/app.json` any more. -/
theorem scenario_end_to_end :
    scenarioPass1.1 = InstanceConfigDiff.mk [InstanceConfig.mk "app" (true, 1) "D"] [] []
    ∧ scenarioPass2.1 = InstanceConfigDiff.mk [] [InstanceConfig.mk "app" (true, 2) "D"] []
    ∧ scenarioPass3.1 = InstanceConfigDiff.mk [] [] ["app"]
    ∧ scenarioPass4.1 = InstanceConfigDiff.mk [] [] []
    ∧ scenarioPass3.2.mFileInfoMap.find "D/app.json" = some (32, 3)
    ∧ scenarioPass4.2.mFileInfoMap.find "D/app.json" = none := by
  decide

/-! ## Entries the pass never loads -/

theorem enumerate_withLoad {J : Type} (env : Env J) (load : String → Option J)
    (dirs : List String) : enumerate (withLoad env load) dirs = enumerate env dirs := by
  induction dirs with
  | nil => rfl
  | cons dir rest ih =>
    rw [enumerate_cons, enumerate_cons env, ih]
    rfl

theorem scanEntry_withLoad {J : Type} [DecidableEq J] (env : Env J)
    (mgr : InstanceConfigManager J) (load : String → Option J) (dir path : String)
    (st : ScanState J)
    (h : stem path = "region_config"
      ∨ st.mFileInfoMap.find path = some (signature env path)
      ∨ load path = env.LoadConfigDetailFromFile path) :
    scanEntry (withLoad env load) mgr dir st path = scanEntry env mgr dir st path := by
  rcases h with h | h | h
  · unfold scanEntry
    simp [h]
  · unfold scanEntry
    simp only [withLoad, h, signature]
    simp
  · unfold scanEntry
    simp only [withLoad, h]

/-- A pass never loads a path that is cached with its current signature: the
loop does the same whatever loading that path would return. -/
theorem scanEntries_withLoad_cached {J : Type} [DecidableEq J] (env : Env J)
    (mgr : InstanceConfigManager J) (load : String → Option J) (p : String)
    (items : List (String × String)) (st : ScanState J)
    (hc : st.mFileInfoMap.find p = some (signature env p))
    (hl : ∀ q, q ≠ p → load q = env.LoadConfigDetailFromFile q) :
    scanEntries (withLoad env load) mgr st items = scanEntries env mgr st items := by
  induction items generalizing st with
  | nil => rfl
  | cons x rest ih =>
    rw [scanEntries_cons, scanEntries_cons]
    have hstep : scanEntry (withLoad env load) mgr x.1 st x.2 = scanEntry env mgr x.1 st x.2 := by
      apply scanEntry_withLoad
      by_cases hxp : x.2 = p
      · exact Or.inr (Or.inl (hxp ▸ hc))
      · exact Or.inr (Or.inr (hl x.2 hxp))
    rw [hstep]
    apply ih
    have hcases := scanEntries_find_cases env mgr [x] st p
    rw [scanEntries_cons] at hcases
    rcases hcases with h | h
    · exact h.trans hc
    · exact h.1

/-- A pass never loads an entry with the reserved name. -/
theorem scanEntries_withLoad_reserved {J : Type} [DecidableEq J] (env : Env J)
    (mgr : InstanceConfigManager J) (load : String → Option J)
    (items : List (String × String)) (st : ScanState J)
    (hl : ∀ q, stem q ≠ "region_config" → load q = env.LoadConfigDetailFromFile q) :
    scanEntries (withLoad env load) mgr st items = scanEntries env mgr st items := by
  induction items generalizing st with
  | nil => rfl
  | cons x rest ih =>
    rw [scanEntries_cons, scanEntries_cons, ih]
    congr 1
    apply scanEntry_withLoad
    by_cases hres : stem x.2 = "region_config"
    · exact Or.inl hres
    · exact Or.inr (Or.inr (hl x.2 hres))

theorem CheckConfigDiff_of_scanEntries {J : Type} [DecidableEq J] (env1 env2 : Env J)
    (mgr : InstanceConfigManager J) (w : InstanceConfigWatcher)
    (h : scanEntries env1 mgr (ScanState.mk [] w.mFileInfoMap (InstanceConfigDiff.mk [] [] []))
          (enumerate env1 w.mSourceDir)
        = scanEntries env2 mgr (ScanState.mk [] w.mFileInfoMap (InstanceConfigDiff.mk [] [] []))
          (enumerate env2 w.mSourceDir)) :
    CheckConfigDiff env1 mgr w = CheckConfigDiff env2 mgr w := by
  rw [CheckConfigDiff_eq, CheckConfigDiff_eq]
  dsimp only
  rw [h]

/-- The cache after a pass, path by path. -/
theorem find_after_pass {J : Type} [DecidableEq J] (env : Env J)
    (mgr : InstanceConfigManager J) (w : InstanceConfigWatcher) (path : String) :
    (CheckConfigDiff env mgr w).2.mFileInfoMap.find path
      = if stem path ∈ seenNames env mgr w then
          (scanEntries env mgr (ScanState.mk [] w.mFileInfoMap (InstanceConfigDiff.mk [] [] []))
            (enumerate env w.mSourceDir)).mFileInfoMap.find path
        else none := by
  rw [CheckConfigDiff_eq, seenNames_eq]
  dsimp only
  rw [FileInfoMap.find_filter_key (fun k => decide (stem k ∈ _)) _ path]
  simp

/-- Claim C14, as amended. Entry-unreadable skip: a directory entry that is not
a regular file, which includes an entry whose status query fails, is skipped as
that entry only: the pass is the pass with that entry absent from the listing,
and a cache entry the pass leaves for its path was there before.  (What a pass
does on a regular file whose size or modification-time query fails is not
stated.) -/
theorem CheckConfigDiff_not_regular_skipped {J : Type} [DecidableEq J] (env : Env J)
    (mgr : InstanceConfigManager J) (w : InstanceConfigWatcher) (path : String)
    (h : is_regular_file (env.status path) = false) :
    CheckConfigDiff (filterListing env (fun q => decide (q ≠ path))) mgr w
      = CheckConfigDiff env mgr w
    ∧ ∀ v, (CheckConfigDiff env mgr w).2.mFileInfoMap.find path = some v →
        w.mFileInfoMap.find path = some v := by
  constructor
  · apply CheckConfigDiff_filterListing
    intro x _ hx
    left
    have hxp : x.2 = path := by simpa using hx
    rw [hxp]
    exact h
  · intro v hv
    rw [find_after_pass] at hv
    by_cases hs : stem path ∈ seenNames env mgr w
    · rw [if_pos hs] at hv
      rcases scanEntries_find_cases env mgr (enumerate env w.mSourceDir)
        (ScanState.mk [] w.mFileInfoMap (InstanceConfigDiff.mk [] [] [])) path with hc | hc
      · rw [← hc]; exact hv
      · obtain ⟨_, _, _, _, _, hreg, _⟩ := hc
        rw [h] at hreg
        exact Bool.noConfusion hreg
    · rw [if_neg hs] at hv
      exact Option.noConfusion hv

/-- Claim C14, witness: `D` lists the sub-directory `D/sub` and the entry
`D/broken.json`, whose status query fails, before `D/x.json`. -/
theorem not_regular_skipped_witness :
    (withSubdir.status "D/broken.json" = none
      ∧ CheckConfigDiff (filterListing withSubdir (fun q => decide (q ≠ "D/broken.json")))
          noneActive freshWatcher = CheckConfigDiff withSubdir noneActive freshWatcher)
    ∧ (is_regular_file (withSubdir.status "D/sub") = false
      ∧ CheckConfigDiff (filterListing withSubdir (fun q => decide (q ≠ "D/sub"))) noneActive
          freshWatcher = CheckConfigDiff withSubdir noneActive freshWatcher) :=
  ⟨⟨by decide,
      (CheckConfigDiff_not_regular_skipped withSubdir noneActive freshWatcher "D/broken.json"
        (by decide)).1⟩,
    ⟨by decide,
      (CheckConfigDiff_not_regular_skipped withSubdir noneActive freshWatcher "D/sub"
        (by decide)).1⟩⟩

/-- Claim C14, counterexample to the unamended statement: the size query of the
regular file `D/x.json` fails, yet the entry is processed: it is loaded and put
into `added`, and its path is cached with the error value as its size, whereas
the pass without the entry returns an empty diff and an empty cache. -/
theorem entry_unreadable_counterexample :
    sizeFails.file_size "D/x.json" = none
    ∧ (CheckConfigDiff sizeFails noneActive freshWatcher).1
        = InstanceConfigDiff.mk [InstanceConfig.mk "x" 1 "D"] [] []
    ∧ (CheckConfigDiff sizeFails noneActive freshWatcher).2.mFileInfoMap.find "D/x.json"
        = some (file_size_error, 1)
    ∧ (CheckConfigDiff (filterListing sizeFails (fun q => decide (q ≠ "D/x.json"))) noneActive
        freshWatcher).1 = InstanceConfigDiff.mk [] [] []
    ∧ (CheckConfigDiff (filterListing sizeFails (fun q => decide (q ≠ "D/x.json"))) noneActive
        freshWatcher).2.mFileInfoMap = [] := by
  decide

/-- Claim C15. Reserved name: entries whose base name without extension is
`region_config` are always skipped: the pass is the pass with every such entry
absent from the listing, it does the same whatever loading such an entry would
return, no entity of `added` or `modified` bears the name, the name is not in
the seen-name set, and the cache after the pass holds no path of that name. -/
theorem CheckConfigDiff_reserved_skipped {J : Type} [DecidableEq J] (env : Env J)
    (mgr : InstanceConfigManager J) (w : InstanceConfigWatcher) :
    CheckConfigDiff (filterListing env (fun q => decide (stem q ≠ "region_config"))) mgr w
      = CheckConfigDiff env mgr w
    ∧ (∀ load : String → Option J,
        (∀ q, stem q ≠ "region_config" → load q = env.LoadConfigDetailFromFile q) →
        CheckConfigDiff (withLoad env load) mgr w = CheckConfigDiff env mgr w)
    ∧ (∀ c ∈ (CheckConfigDiff env mgr w).1.mAdded ++ (CheckConfigDiff env mgr w).1.mModified,
        c.mConfigName ≠ "region_config")
    ∧ "region_config" ∉ seenNames env mgr w
    ∧ ∀ kv ∈ (CheckConfigDiff env mgr w).2.mFileInfoMap, stem kv.1 ≠ "region_config" := by
  have hseen : "region_config" ∉ seenNames env mgr w := by
    rw [mem_seenNames_iff]
    rintro ⟨x, _, _, h2, h3⟩
    exact h2 h3
  refine ⟨?_, ?_, ?_, hseen, ?_⟩
  · apply CheckConfigDiff_filterListing
    intro x _ hx
    right
    simpa using hx
  · intro load hl
    apply CheckConfigDiff_of_scanEntries
    rw [enumerate_withLoad]
    exact scanEntries_withLoad_reserved env mgr load _ _ hl
  · intro c hc hname
    have hinv := scanEntries_names_inv env mgr (enumerate env w.mSourceDir)
      (ScanState.mk [] w.mFileInfoMap (InstanceConfigDiff.mk [] [] []))
      (by simp [diffNames]) (by simp [diffNames])
    rw [seenNames_eq] at hseen
    apply hseen
    apply hinv.2
    rw [CheckConfigDiff_eq] at hc
    dsimp only at hc
    simp only [diffNames, List.mem_append, List.mem_map]
    rcases List.mem_append.mp hc with hc | hc
    · exact Or.inl (Or.inl ⟨c, hc, hname⟩)
    · exact Or.inl (Or.inr ⟨c, hc, hname⟩)
  · intro kv hkv hname
    rw [CheckConfigDiff_eq] at hkv
    dsimp only at hkv
    simp only [List.mem_filter, decide_eq_true_eq] at hkv
    rw [seenNames_eq] at hseen
    exact hseen (hname ▸ hkv.2)

/-! ## Where the entries of the diff come from -/

theorem outcome_sound {J : Type} [DecidableEq J] (env : Env J) (mgr : InstanceConfigManager J)
    (dir path : String) (cached : Option (Nat × Int)) :
    (∀ c ∈ (outcome env mgr dir path cached).mAdded ++ (outcome env mgr dir path cached).mModified,
      c.mConfigName = stem path ∧ c.mDirName = dir
      ∧ is_regular_file (env.status path) = true
      ∧ env.LoadConfigDetailFromFile path = some c.mDetail
      ∧ env.IsConfigEnabled (stem path) c.mDetail = true)
    ∧ (∀ c ∈ (outcome env mgr dir path cached).mModified,
        ∃ e, mgr.FindConfigByName (stem path) = some e ∧ e.mDetail ≠ c.mDetail)
    ∧ (∀ n ∈ (outcome env mgr dir path cached).mRemoved,
        n = stem path ∧ (mgr.FindConfigByName n).isSome = true) := by
  by_cases h2 : stem path = "region_config"
  · have : outcome env mgr dir path cached = InstanceConfigDiff.mk [] [] [] := by
      unfold outcome scanEntry
      simp [h2]
    rw [this]
    simp
  by_cases h1 : is_regular_file (env.status path) = true
  swap
  · have : outcome env mgr dir path cached = InstanceConfigDiff.mk [] [] [] := by
      unfold outcome scanEntry
      simp [h1, h2]
    rw [this]
    simp
  cases hl : env.LoadConfigDetailFromFile path with
  | none =>
    rw [outcome_load_failed env mgr dir path cached hl]
    simp
  | some detail =>
    cases cached with
    | none =>
      by_cases he : env.IsConfigEnabled (stem path) detail = true
      · rw [outcome_new_enabled env mgr dir path detail h1 h2 hl he]
        simp [h1, he]
      · have : outcome env mgr dir path none = InstanceConfigDiff.mk [] [] [] := by
          unfold outcome scanEntry
          simp [h1, h2, hl, he, FileInfoMap.find]
        rw [this]
        simp
    | some c =>
      by_cases hc : c = signature env path
      · rw [hc, outcome_unchanged]
        simp
      · rw [outcome_changed env mgr dir path c detail h1 h2 hc hl]
        by_cases he : env.IsConfigEnabled (stem path) detail = true
        · cases hm : mgr.FindConfigByName (stem path) with
          | none => simp [he, h1]
          | some e =>
            by_cases hd : detail = e.mDetail
            · have he2 := he
              rw [hd] at he2
              simp [he2, hd]
            · have hd2 : ¬ e.mDetail = detail := fun h => hd h.symm
              simp [he, hd, hd2, h1]
        · cases hm : mgr.FindConfigByName (stem path) with
          | none => simp [he]
          | some e => simp [he, hm]

/-- Every entry of the diff the loop builds was there at the start or is in the
outcome of an enumerated entry. -/
theorem scanEntries_diff_sources {J : Type} [DecidableEq J] (env : Env J)
    (mgr : InstanceConfigManager J) (items : List (String × String)) (st : ScanState J) :
    (∀ c ∈ (scanEntries env mgr st items).diff.mAdded, c ∈ st.diff.mAdded
      ∨ ∃ x ∈ items, ∃ cached, c ∈ (outcome env mgr x.1 x.2 cached).mAdded)
    ∧ (∀ c ∈ (scanEntries env mgr st items).diff.mModified, c ∈ st.diff.mModified
      ∨ ∃ x ∈ items, ∃ cached, c ∈ (outcome env mgr x.1 x.2 cached).mModified)
    ∧ (∀ n ∈ (scanEntries env mgr st items).diff.mRemoved, n ∈ st.diff.mRemoved
      ∨ ∃ x ∈ items, ∃ cached, n ∈ (outcome env mgr x.1 x.2 cached).mRemoved) := by
  induction items generalizing st with
  | nil => exact ⟨fun c h => Or.inl h, fun c h => Or.inl h, fun n h => Or.inl h⟩
  | cons x rest ih =>
    rw [scanEntries_cons]
    obtain ⟨ihA, ihM, ihR⟩ := ih (scanEntry env mgr x.1 st x.2)
    by_cases hg : is_regular_file (env.status x.2) = true ∧ stem x.2 ≠ "region_config"
        ∧ stem x.2 ∉ st.configSet
    · have heq : (scanEntry env mgr x.1 st x.2).diff
          = st.diff.append (outcome env mgr x.1 x.2 (st.mFileInfoMap.find x.2)) := by
        rw [scanEntry_eq env mgr x.1 x.2 st hg.1 hg.2.1 hg.2.2]
      refine ⟨?_, ?_, ?_⟩
      · intro c hc
        rcases ihA c hc with h | ⟨y, hy, k, h⟩
        · rw [heq] at h
          rcases List.mem_append.mp h with h | h
          · exact Or.inl h
          · exact Or.inr ⟨x, List.mem_cons_self _ _, _, h⟩
        · exact Or.inr ⟨y, List.mem_cons_of_mem _ hy, k, h⟩
      · intro c hc
        rcases ihM c hc with h | ⟨y, hy, k, h⟩
        · rw [heq] at h
          rcases List.mem_append.mp h with h | h
          · exact Or.inl h
          · exact Or.inr ⟨x, List.mem_cons_self _ _, _, h⟩
        · exact Or.inr ⟨y, List.mem_cons_of_mem _ hy, k, h⟩
      · intro n hn
        rcases ihR n hn with h | ⟨y, hy, k, h⟩
        · rw [heq] at h
          rcases List.mem_append.mp h with h | h
          · exact Or.inl h
          · exact Or.inr ⟨x, List.mem_cons_self _ _, _, h⟩
        · exact Or.inr ⟨y, List.mem_cons_of_mem _ hy, k, h⟩
    · rw [scanEntry_skip env mgr x.1 x.2 st hg] at ihA ihM ihR ⊢
      refine ⟨?_, ?_, ?_⟩
      · intro c hc
        rcases ihA c hc with h | ⟨y, hy, k, h⟩
        · exact Or.inl h
        · exact Or.inr ⟨y, List.mem_cons_of_mem _ hy, k, h⟩
      · intro c hc
        rcases ihM c hc with h | ⟨y, hy, k, h⟩
        · exact Or.inl h
        · exact Or.inr ⟨y, List.mem_cons_of_mem _ hy, k, h⟩
      · intro n hn
        rcases ihR n hn with h | ⟨y, hy, k, h⟩
        · exact Or.inl h
        · exact Or.inr ⟨y, List.mem_cons_of_mem _ hy, k, h⟩

theorem FindConfigByName_isSome_of_mem {J : Type} (mgr : InstanceConfigManager J) (n : String)
    (h : n ∈ mgr.GetAllConfigNames) : (mgr.FindConfigByName n).isSome = true := by
  simp only [InstanceConfigManager.GetAllConfigNames, List.mem_dedup, List.mem_map] at h
  obtain ⟨c, hc, hn⟩ := h
  simp only [InstanceConfigManager.FindConfigByName, List.find?_isSome, decide_eq_true_eq]
  exact ⟨c, hc, hn⟩

/-- Claim C17. Signature throttle: after a pass the cache maps the path of a
processed file that was new to the cache or cached with another signature to
the file's current `(size, mTime)`, whatever loading it gave; so if its load
failed and it is again the processed file of its name with the same signature
in the next pass, the next pass emits no `added` or `modified` entry of its name
and does the same whatever loading the file would return (it is not loaded). -/
theorem CheckConfigDiff_signature_throttle {J : Type} [DecidableEq J] (env1 : Env J)
    (mgr1 : InstanceConfigManager J) (w : InstanceConfigWatcher) (d1 p : String)
    (hp : Processed env1 (enumerate env1 w.mSourceDir) d1 p)
    (_hnew : w.mFileInfoMap.find p ≠ some (signature env1 p)) :
    (CheckConfigDiff env1 mgr1 w).2.mFileInfoMap.find p = some (signature env1 p)
    ∧ ∀ (env2 : Env J) (mgr2 : InstanceConfigManager J) (d2 : String),
        env1.LoadConfigDetailFromFile p = none →
        Processed env2 (enumerate env2 (CheckConfigDiff env1 mgr1 w).2.mSourceDir) d2 p →
        signature env2 p = signature env1 p →
        (stem p ∉ (CheckConfigDiff env2 mgr2 (CheckConfigDiff env1 mgr1 w).2).1.mAdded.map
            (fun c => c.mConfigName)
          ∧ stem p ∉ (CheckConfigDiff env2 mgr2 (CheckConfigDiff env1 mgr1 w).2).1.mModified.map
            (fun c => c.mConfigName))
        ∧ ∀ load : String → Option J,
            (∀ q, q ≠ p → load q = env2.LoadConfigDetailFromFile q) →
            CheckConfigDiff (withLoad env2 load) mgr2 (CheckConfigDiff env1 mgr1 w).2
              = CheckConfigDiff env2 mgr2 (CheckConfigDiff env1 mgr1 w).2 := by
  have hc := (CheckConfigDiff_named env1 mgr1 w d1 p hp).2
  refine ⟨hc, ?_⟩
  intro env2 mgr2 d2 _ hp2 hsig
  constructor
  · have hn := (CheckConfigDiff_named env2 mgr2 (CheckConfigDiff env1 mgr1 w).2 d2 p hp2).1
    rw [hc, ← hsig, outcome_unchanged] at hn
    have h := (not_mem_diffNames_iff _ _).mpr hn
    simp only [diffNames, List.mem_append, not_or] at h
    exact h.1
  · intro load hl
    apply CheckConfigDiff_of_scanEntries
    rw [enumerate_withLoad]
    exact scanEntries_withLoad_cached env2 mgr2 load p _ _ (by rw [hsig]; exact hc) hl

/-- Claim C17, witness: `D/x.json` does not parse in the first pass and keeps
its signature; in the next pass it would parse, and is not looked at. -/
theorem signature_throttle_witness :
    (CheckConfigDiff (oneFile none) noneActive freshWatcher).2.mFileInfoMap.find "D/x.json"
      = some (signature (oneFile none) "D/x.json")
    ∧ stem "D/x.json" ∉
        (CheckConfigDiff (oneFile (some 1)) noneActive
          (CheckConfigDiff (oneFile none) noneActive freshWatcher).2).1.mAdded.map
            (fun c => c.mConfigName) := by
  have h := CheckConfigDiff_signature_throttle (oneFile none) noneActive freshWatcher "D"
    "D/x.json" ⟨[], [], by decide, by decide, by decide, by simp⟩ (by decide)
  exact ⟨h.1, ((h.2 (oneFile (some 1)) noneActive "D" (by decide)
    ⟨[], [], by decide, by decide, by decide, by simp⟩ (by decide)).1).1⟩

/-- Claim C18. Cache pruning: after a pass the cache has an entry for a path
exactly when the path was in the cache before the pass or was stored during it
(it is the path of a processed entry whose signature was not the cached one)
and its derived name is in the seen-name set of the pass. -/
theorem CheckConfigDiff_cache_pruned {J : Type} [DecidableEq J] (env : Env J)
    (mgr : InstanceConfigManager J) (w : InstanceConfigWatcher) (path : String) :
    ((CheckConfigDiff env mgr w).2.mFileInfoMap.find path).isSome = true
      ↔ ((w.mFileInfoMap.find path).isSome = true
          ∨ ∃ d, Processed env (enumerate env w.mSourceDir) d path
              ∧ w.mFileInfoMap.find path ≠ some (signature env path))
        ∧ stem path ∈ seenNames env mgr w := by
  rw [find_after_pass]
  have hcases := scanEntries_find_cases env mgr (enumerate env w.mSourceDir)
    (ScanState.mk [] w.mFileInfoMap (InstanceConfigDiff.mk [] [] [])) path
  by_cases hs : stem path ∈ seenNames env mgr w
  · rw [if_pos hs]
    constructor
    · intro h
      refine ⟨?_, hs⟩
      by_cases hb : (w.mFileInfoMap.find path).isSome = true
      · exact Or.inl hb
      · right
        rcases hcases with hc | ⟨_, pre, post, d, hsplit, h1, h2, _, h4⟩
        · rw [hc] at h
          exact absurd h hb
        · refine ⟨d, ⟨pre, post, hsplit, h1, h2, h4⟩, ?_⟩
          intro hc
          rw [hc] at hb
          exact hb rfl
    · rintro ⟨hb | ⟨d, hp, _⟩, _⟩
      · rcases hcases with hc | hc
        · rw [hc]; exact hb
        · rw [hc.1]; rfl
      · obtain ⟨pre, post, hsplit, h1, h2, h4⟩ := hp
        have hF := scanEntries_focus env mgr pre post d path
          (ScanState.mk [] w.mFileInfoMap (InstanceConfigDiff.mk [] [] [])) h1 h2 (by simp) h4
        rw [← hsplit] at hF
        rw [hF.2.1]
        rfl
  · rw [if_neg hs]
    constructor
    · intro h
      exact Bool.noConfusion h
    · rintro ⟨_, h⟩
      exact absurd h hs

/-- Claim C19. Removed names are active: every name of `removed` is the name
of an entity the registry holds at the time of the pass. -/
theorem CheckConfigDiff_removed_active {J : Type} [DecidableEq J] (env : Env J)
    (mgr : InstanceConfigManager J) (w : InstanceConfigWatcher) :
    ∀ n ∈ (CheckConfigDiff env mgr w).1.mRemoved, (mgr.FindConfigByName n).isSome = true := by
  intro n hn
  rw [CheckConfigDiff_eq] at hn
  dsimp only at hn
  rcases List.mem_append.mp hn with h | h
  · rcases (scanEntries_diff_sources env mgr _ _).2.2 n h with h0 | ⟨x, _, k, hx⟩
    · simp at h0
    · exact ((outcome_sound env mgr x.1 x.2 k).2.2 n hx).2
  · exact FindConfigByName_isSome_of_mem mgr n (List.mem_filter.mp h).1

/-- Claim C19, witness: the disabled `D/x.json` of the active entity `x`. -/
theorem removed_active_witness :
    "x" ∈ (CheckConfigDiff (oneFile (some 0)) (oneActive "x" 1) staleWatcher).1.mRemoved
    ∧ ((oneActive "x" 1).FindConfigByName "x").isSome = true := by
  have hmem : "x" ∈ (CheckConfigDiff (oneFile (some 0)) (oneActive "x" 1)
      staleWatcher).1.mRemoved := by decide
  exact ⟨hmem,
    CheckConfigDiff_removed_active (oneFile (some 0)) (oneActive "x" 1) staleWatcher "x" hmem⟩

/-- Claim C20. Diff soundness: every entity of `added` or `modified` bears the
stem of a regular file enumerated in its source directory, carries the content
the loader returned for that file, and is enabled; every entity of `modified`
has a registry entry of its name whose stored content differs from its own. -/
theorem CheckConfigDiff_diff_sound {J : Type} [DecidableEq J] (env : Env J)
    (mgr : InstanceConfigManager J) (w : InstanceConfigWatcher) :
    (∀ c ∈ (CheckConfigDiff env mgr w).1.mAdded ++ (CheckConfigDiff env mgr w).1.mModified,
      ∃ path, (c.mDirName, path) ∈ enumerate env w.mSourceDir
        ∧ is_regular_file (env.status path) = true
        ∧ stem path = c.mConfigName
        ∧ env.LoadConfigDetailFromFile path = some c.mDetail
        ∧ env.IsConfigEnabled c.mConfigName c.mDetail = true)
    ∧ ∀ c ∈ (CheckConfigDiff env mgr w).1.mModified,
        ∃ e, mgr.FindConfigByName c.mConfigName = some e ∧ e.mDetail ≠ c.mDetail := by
  rw [CheckConfigDiff_eq]
  dsimp only
  have hsrc := scanEntries_diff_sources env mgr (enumerate env w.mSourceDir)
    (ScanState.mk [] w.mFileInfoMap (InstanceConfigDiff.mk [] [] []))
  constructor
  · intro c hc
    have hx : ∃ x ∈ enumerate env w.mSourceDir, ∃ k,
        c ∈ (outcome env mgr x.1 x.2 k).mAdded ++ (outcome env mgr x.1 x.2 k).mModified := by
      rcases List.mem_append.mp hc with h | h
      · rcases hsrc.1 c h with h0 | ⟨x, hx, k, hk⟩
        · simp at h0
        · exact ⟨x, hx, k, List.mem_append_left _ hk⟩
      · rcases hsrc.2.1 c h with h0 | ⟨x, hx, k, hk⟩
        · simp at h0
        · exact ⟨x, hx, k, List.mem_append_right _ hk⟩
    obtain ⟨x, hx, k, hk⟩ := hx
    obtain ⟨h1, h2, h3, h4, h5⟩ := (outcome_sound env mgr x.1 x.2 k).1 c hk
    refine ⟨x.2, ?_, h3, h1.symm, h4, ?_⟩
    · rw [h2]; exact hx
    · rw [h1]; exact h5
  · intro c hc
    rcases hsrc.2.1 c hc with h0 | ⟨x, hx, k, hk⟩
    · simp at h0
    · have h1 := ((outcome_sound env mgr x.1 x.2 k).1 c (List.mem_append_right _ hk)).1
      rw [h1]
      exact (outcome_sound env mgr x.1 x.2 k).2.1 c hk

/-! ## Added while active -/

/-- Claim C21. Added does not imply inactive: there are a signature cache, a
snapshot and a registry for which the pass puts into `added` an entity whose
name has a registry entry.  Here the file `D/x.json` of the active entity `x`
was replaced by `D/x.yaml`: the new path is not in the cache, so lines 84-98
emit it into `added` without consulting the registry. -/
theorem CheckConfigDiff_added_while_active :
    ∃ (env : Env Nat) (mgr : InstanceConfigManager Nat) (w : InstanceConfigWatcher),
      ∃ c ∈ (CheckConfigDiff env mgr w).1.mAdded,
        (mgr.FindConfigByName c.mConfigName).isSome = true :=
  ⟨renamedFile, oneActive "x" 1, staleWatcher, InstanceConfig.mk "x" 1 "D", by decide, by decide⟩

/-! ## MetricExportor: classification of the metric keys -/

theorem compareChars_eq_zero_iff (a b : List Char) : compareChars a b = 0 ↔ a = b := by
  induction a generalizing b with
  | nil =>
    cases b with
    | nil => simp [compareChars]
    | cons y ys => simp [compareChars]
  | cons x xs ih =>
    cases b with
    | nil => simp [compareChars]
    | cons y ys =>
      simp only [compareChars]
      by_cases h1 : x < y
      · simp only [h1, if_true]
        constructor
        · intro h; exact absurd h (by decide)
        · intro h
          rw [List.cons.injEq] at h
          exact absurd h1 (by rw [h.1]; exact lt_irrefl _)
      · by_cases h2 : y < x
        · simp only [h1, h2, if_true, if_false]
          constructor
          · intro h; exact absurd h (by decide)
          · intro h
            rw [List.cons.injEq] at h
            exact absurd h2 (by rw [h.1]; exact lt_irrefl _)
        · simp only [h1, h2, if_false]
          rw [ih, List.cons.injEq]
          have hxy : x = y := le_antisymm (not_lt.mp h2) (not_lt.mp h1)
          constructor
          · intro h; exact ⟨hxy, h⟩
          · intro h; exact h.2

theorem string_compare_eq_zero_iff (s str : String) : string_compare s str = 0 ↔ s = str := by
  rw [string_compare, compareChars_eq_zero_iff]
  constructor
  · intro h; exact String.ext h
  · intro h; rw [h]

/-- The test `s.compare(0, str.length(), str) == 0` holds exactly when `s` starts
with `str`. -/
theorem string_compare_head_eq_zero_iff (s str : String) :
    string_compare_head s str.data.length str = 0 ↔ str.data <+: s.data := by
  rw [string_compare_head, compareChars_eq_zero_iff, List.prefix_iff_eq_take]
  constructor
  · intro h; exact h.symm
  · intro h; exact h.symm

/-- What `SerializeGoDirectMetricsListToLogGroupMap` does with a key other than
`label.metric_category`: a key that starts with the label prefix becomes a
content under its own key, and any other key goes into the label object under
the key cut at the prefix length plus one (line 236 tests the result of
`compare` for being non-zero). -/
theorem SerializeGoDirectMetricsListToLogGroupMap_metric_eq
    (METRIC_KEY_LABEL METRIC_KEY_CATEGORY : String) (log : LogRecord) (key value : String)
    (hk : key ≠ "label.metric_category") :
    SerializeGoDirectMetricsListToLogGroupMap.metric METRIC_KEY_LABEL METRIC_KEY_CATEGORY log
        (key, value)
      = if METRIC_KEY_LABEL.data <+: key.data then
          some (LogRecord.mk (log.contents ++ [(key, value)]) log.metricsRecordLabel)
        else
          (substr key (METRIC_KEY_LABEL.data.length + 1)).map
            (fun k => LogRecord.mk log.contents (jsonSet log.metricsRecordLabel k value)) := by
  unfold SerializeGoDirectMetricsListToLogGroupMap.metric
  have h1 : ¬ string_compare key "label.metric_category" = 0 := by
    rw [string_compare_eq_zero_iff]; exact hk
  simp only [h1, if_false, ne_eq, string_compare_head_eq_zero_iff]
  by_cases hp : METRIC_KEY_LABEL.data <+: key.data
  · simp [hp]
  · simp only [hp, not_false_eq_true, if_true, if_false]
    cases substr key (METRIC_KEY_LABEL.data.length + 1) <;> rfl

/-- What `SerializeGoDirectMetricsListToString` does with a key other than
`label.metric_category`: a key that starts with the label prefix goes into the
label object under the key cut at the prefix length plus one, and any other key
becomes a member of the record under the key cut at the value prefix length
plus one (line 268 tests the result of `compare` for being zero). -/
theorem SerializeGoDirectMetricsListToString_metric_eq
    (METRIC_KEY_LABEL METRIC_KEY_VALUE METRIC_KEY_CATEGORY : String) (json : JsonRecord)
    (key value : String) (hk : key ≠ "label.metric_category") :
    SerializeGoDirectMetricsListToString.metric METRIC_KEY_LABEL METRIC_KEY_VALUE
        METRIC_KEY_CATEGORY json (key, value)
      = if METRIC_KEY_LABEL.data <+: key.data then
          (substr key (METRIC_KEY_LABEL.data.length + 1)).map
            (fun k => JsonRecord.mk json.metricsRecordJson
              (jsonSet json.metricsRecordLabel k value))
        else
          (substr key (METRIC_KEY_VALUE.data.length + 1)).map
            (fun k => JsonRecord.mk (jsonSet json.metricsRecordJson k value)
              json.metricsRecordLabel) := by
  unfold SerializeGoDirectMetricsListToString.metric
  have h1 : ¬ string_compare key "label.metric_category" = 0 := by
    rw [string_compare_eq_zero_iff]; exact hk
  simp only [h1, if_false, string_compare_head_eq_zero_iff]
  by_cases hp : METRIC_KEY_LABEL.data <+: key.data
  · simp only [hp, if_true]
    cases substr key (METRIC_KEY_LABEL.data.length + 1) <;> rfl
  · simp only [hp, if_false]
    cases substr key (METRIC_KEY_VALUE.data.length + 1) <;> rfl

/-- Claim C22, the code at the failing input.  With the prefixes `label` and
`value`, the metrics map `label.project = p`, `value.proc_in_records_total = 7`
is turned by `SerializeGoDirectMetricsListToLogGroupMap` into the content
`label.project` and the label `proc_in_records_total`, while
`SerializeGoDirectMetricsListToString` makes `project` the label and
`proc_in_records_total` the value; and on the key `cpu` the former calls
`substr` past the end of the key. -/
theorem SerializeGoDirectMetrics_label_test_inverted :
    SerializeGoDirectMetricsListToLogGroupMap.record "label" "category" goMetrics
      = some (LogRecord.mk [("label.project", "p")] [("proc_in_records_total", "7")])
    ∧ SerializeGoDirectMetricsListToString.record "label" "value" "category" goMetrics
      = some (JsonRecord.mk [("proc_in_records_total", "7")] [("project", "p")])
    ∧ SerializeGoDirectMetricsListToLogGroupMap.record "label" "category" [("cpu", "1")]
      = none := by
  decide

/-! ## Enumeration failure after the directory was opened -/

theorem scanDir_unavailable {J : Type} [DecidableEq J] (env : Env J)
    (mgr : InstanceConfigManager J) (increment_throws : String → Bool) (st : ScanState J)
    (dir : String) (h : dirUnavailable env dir) :
    scanDir env mgr increment_throws st dir = Except.ok st := by
  unfold scanDir
  cases hs : env.status dir with
  | none => rfl
  | some t =>
    rw [dirUnavailable, hs] at h
    by_cases he : file_exists (some t) = true
    · by_cases hd : is_directory (some t) = true
      · rcases h with h | h | h | h
        · exact Option.noConfusion h
        · rw [he] at h; exact Bool.noConfusion h
        · rw [hd] at h; exact Bool.noConfusion h
        · simp [he, hd, h]
      · simp [he, hd]
    · simp [he]

theorem scanDirs_append {J : Type} [DecidableEq J] (env : Env J)
    (mgr : InstanceConfigManager J) (increment_throws : String → Bool) (a b : List String)
    (st : ScanState J) :
    scanDirs env mgr increment_throws st (a ++ b)
      = match scanDirs env mgr increment_throws st a with
        | Except.error thrown => Except.error thrown
        | Except.ok next => scanDirs env mgr increment_throws next b := by
  induction a generalizing st with
  | nil => rfl
  | cons dir rest ih =>
    rw [List.cons_append, scanDirs, scanDirs]
    cases scanDir env mgr increment_throws st dir with
    | error thrown => rfl
    | ok next => exact ih next

/-- Whatever the other directories do, a directory whose status query fails,
that does not exist, that is not a directory or whose enumeration fails when it
is opened is skipped by the outer loop, and so by the call. -/
theorem scanDirs_unavailable_dir {J : Type} [DecidableEq J] (env : Env J)
    (increment_throws : String → Bool) (mgr : InstanceConfigManager J)
    (before after : List String) (dir : String) (st : ScanState J)
    (h : dirUnavailable env dir) :
    scanDirs env mgr increment_throws st (before ++ dir :: after)
      = scanDirs env mgr increment_throws st (before ++ after) := by
  rw [scanDirs_append, scanDirs_append]
  cases scanDirs env mgr increment_throws st before with
  | error thrown => rfl
  | ok next =>
    dsimp only
    rw [scanDirs, scanDir_unavailable env mgr increment_throws next dir h]

/-- Claim C12, the code at the failing input.  The configured directories are
`E` and `D`; the enumeration of `E` is opened, yields `E/a.json` and then fails
while it advances.  The call does not skip `E`: the exception escapes it, no
diff is returned, `D` is not scanned and the cache is left with the entry of
`E/a.json`.  The call on `D` alone, which the claim equates it with, returns
`added = [x]` and the cache of `D/x.json`. -/
theorem CheckConfigDiff_enumeration_failure_aborts :
    CheckConfigDiffOrThrow twoDirs failsInE noneActive (InstanceConfigWatcher.mk ["E", "D"] [])
      = Except.error (InstanceConfigWatcher.mk ["E", "D"] [("E/a.json", (1, 1))])
    ∧ CheckConfigDiffOrThrow twoDirs failsInE noneActive (InstanceConfigWatcher.mk ["D"] [])
      = Except.ok (InstanceConfigDiff.mk [InstanceConfig.mk "x" 1 "D"] [] [],
          InstanceConfigWatcher.mk ["D"] [("D/x.json", (1, 1))]) :=
  ⟨rfl, rfl⟩

end logtail
